import Mathlib

set_option linter.unusedVariables false

/-!
Verification of the fl-fog fog-computing layer against its specification.

This file gives a shallow embedding, in Lean 4, of the parts of the
repository that the specification talks about:

* `ModelCache` (src/fog_node/model_cache.py): an LRU + TTL cache over a
  Python dict, with a size budget and statistics counters.
* `EdgeCoordinator` (src/fog_node/edge_coordinator.py): device registry and
  workload assignment bookkeeping.
* `RegionalAggregator` (src/fog_node/aggregator.py): round management and
  FedAvg aggregation of edge updates.
* `FogNode.request_model` (src/fog_node/__init__.py).

Python dicts are embedded as insertion-ordered association lists, datetimes
as integers (seconds), Python float arithmetic as exact rational
arithmetic, and Python byte strings by their lengths.  Methods become pure
state-passing functions; `async` plays no role in the modelled code paths
(every modelled method runs without interleaving).
-/

/-- One entry of the cache, mirroring the `CacheEntry` dataclass
(src/fog_node/model_cache.py).  `data` is an abstract payload identifier;
`size_bytes` stands for `len(pickle.dumps(data))` and is supplied by the
caller of `put` (serialization is treated as an oracle).  `ttl` of `none`
is Python `None`; `metadata` of `none` is Python `None`. -/
structure CacheEntry where
  key : String
  data : Nat
  size_bytes : Nat
  created_at : Int
  last_accessed : Int
  access_count : Nat
  ttl : Option Int
  metadata : Option (List (String × String))
deriving DecidableEq, Repr

/-- State of `ModelCache` (src/fog_node/model_cache.py).  The Python dict
`self.cache` is an insertion-ordered association list; `self.stats` is
flattened into four counters. -/
structure ModelCache where
  max_size_bytes : Int
  default_ttl : Int
  cache : List CacheEntry
  current_size : Int
  access_order : List String
  hits : Nat
  misses : Nat
  evictions : Nat
  total_requests : Nat
deriving DecidableEq, Repr

/-- A fresh cache.  The Python constructor receives the budget in GB and
multiplies it out to bytes; we take the resulting byte budget and the
default TTL (seconds) directly. -/
def mkModelCache (maxBytes : Int) (defaultTtl : Int) : ModelCache :=
  { max_size_bytes := maxBytes
    default_ttl := defaultTtl
    cache := []
    current_size := 0
    access_order := []
    hits := 0
    misses := 0
    evictions := 0
    total_requests := 0 }

/-- `key in self.cache` / `self.cache[key]`: first (and, for a well-formed
dict, only) entry with the given key. -/
def lookupEntry (c : List CacheEntry) (key : String) : Option CacheEntry :=
  c.find? (fun e => e.key == key)

/-- `del self.cache[key]`: drop the first entry with the given key,
keeping the order of the others (Python dicts preserve insertion order
under deletion). -/
def eraseEntry (c : List CacheEntry) (key : String) : List CacheEntry :=
  c.eraseP (fun e => e.key == key)

/-- `self.cache[key] = entry`: replace in place when the key is present,
append otherwise (Python dict assignment semantics). -/
def dictInsertEntry (c : List CacheEntry) (e : CacheEntry) : List CacheEntry :=
  if c.any (fun x => x.key == e.key) then
    c.map (fun x => if x.key == e.key then e else x)
  else
    c ++ [e]

/-- Keys of the cache dict, in insertion order. -/
def cacheKeys (c : List CacheEntry) : List String :=
  c.map (fun e => e.key)

/-- `ModelCache._remove_entry`: returns `False` and changes nothing when
the key is absent; otherwise subtracts the entry size, deletes the dict
entry and removes the key from `access_order` if present (`List.erase` is
a no-op on an absent key, matching the guarded `remove`). -/
def ModelCache.remove_entry (s : ModelCache) (key : String) : Bool × ModelCache :=
  match lookupEntry s.cache key with
  | none => (false, s)
  | some e =>
      (true,
        { s with
          cache := eraseEntry s.cache key
          current_size := s.current_size - (e.size_bytes : Int)
          access_order := s.access_order.erase key })

/-- The loop body of `ModelCache._make_space`, structurally recursing on
the access-order list (each productive iteration of the Python `while`
removes the head of `self.access_order`, so the list argument tracks
`self.access_order` exactly).  The Python loop does not terminate when the
LRU key is missing from the dict (`_remove_entry` then returns `False`
without consuming the key while the eviction counter grows); that case is
modelled as `none`. -/
def ModelCache.make_space_aux (order : List String) (s : ModelCache) (required : Int) :
    Option ModelCache :=
  if s.current_size + required ≤ s.max_size_bytes then some s
  else
    match order with
    | [] => some s
    | lru :: rest =>
        match lookupEntry s.cache lru with
        | none => none
        | some _ =>
            let s1 := (s.remove_entry lru).2
            ModelCache.make_space_aux rest { s1 with evictions := s1.evictions + 1 } required

/-- `ModelCache._make_space`: evict least-recently-used entries while the
incoming size does not fit, bumping `stats["evictions"]` per eviction. -/
def ModelCache.make_space (s : ModelCache) (required : Int) : Option ModelCache :=
  ModelCache.make_space_aux s.access_order s required

/-- Python truthiness of `ttl or self.default_ttl`: `None` and the zero
timedelta are falsy. -/
def pyOrTtl (ttl : Option Int) (dflt : Int) : Int :=
  match ttl with
  | some t => if t = 0 then dflt else t
  | none => dflt

/-- Python truthiness of `metadata or {}`. -/
def pyOrMeta (md : Option (List (String × String))) : List (String × String) :=
  match md with
  | some l => if l = [] then [] else l
  | none => []

/-- `ModelCache.put`: reject data larger than the whole budget, make
space, drop a previous entry under the same key, then insert the new entry
at the end of the dict and of the access order.  `none` is the
(unreachable from well-formed states) divergence of `_make_space`. -/
def ModelCache.put (s : ModelCache) (now : Int) (key : String) (data : Nat)
    (size_bytes : Nat) (ttl : Option Int) (metadata : Option (List (String × String))) :
    Option (Bool × ModelCache) :=
  if (size_bytes : Int) > s.max_size_bytes then some (false, s)
  else
    match s.make_space (size_bytes : Int) with
    | none => none
    | some s1 =>
        let entry : CacheEntry :=
          { key := key
            data := data
            size_bytes := size_bytes
            created_at := now
            last_accessed := now
            access_count := 0
            ttl := some (pyOrTtl ttl s.default_ttl)
            metadata := some (pyOrMeta metadata) }
        let s2 := if (lookupEntry s1.cache key).isSome then (s1.remove_entry key).2 else s1
        some (true,
          { s2 with
            cache := dictInsertEntry s2.cache entry
            current_size := s2.current_size + (size_bytes : Int)
            access_order := s2.access_order ++ [key] })

/-- `entry.ttl and datetime.now() - entry.created_at > entry.ttl` (a zero
timedelta is falsy). -/
def CacheEntry.expired (e : CacheEntry) (now : Int) : Bool :=
  match e.ttl with
  | some t => t != 0 && now - e.created_at > t
  | none => false

/-- `ModelCache.get`: count the request; on a miss or a TTL-expired entry
count a miss (removing the expired entry); on a hit refresh the entry in
place, move the key to the most-recently-used end and count a hit. -/
def ModelCache.get (s : ModelCache) (now : Int) (key : String) :
    Option Nat × ModelCache :=
  let s0 := { s with total_requests := s.total_requests + 1 }
  match lookupEntry s0.cache key with
  | none => (none, { s0 with misses := s0.misses + 1 })
  | some e =>
      if e.expired now then
        let s1 := (s0.remove_entry key).2
        (none, { s1 with misses := s1.misses + 1 })
      else
        let e1 := { e with last_accessed := now, access_count := e.access_count + 1 }
        (some e1.data,
          { s0 with
            cache := dictInsertEntry s0.cache e1
            access_order := s0.access_order.erase key ++ [key]
            hits := s0.hits + 1 })

/-- `ModelCache.contains`: like `get` but only the TTL-triggered removal
mutates the state. -/
def ModelCache.containsKey (s : ModelCache) (now : Int) (key : String) :
    Bool × ModelCache :=
  match lookupEntry s.cache key with
  | none => (false, s)
  | some e =>
      if e.expired now then (false, (s.remove_entry key).2)
      else (true, s)

/-- `ModelCache.remove` just delegates to `_remove_entry`. -/
def ModelCache.removeKey (s : ModelCache) (key : String) : Bool × ModelCache :=
  s.remove_entry key

/-- `ModelCache.clear`: empty the dict and the access order, reset the
size; the statistics stay. -/
def ModelCache.clearAll (s : ModelCache) : ModelCache :=
  { s with cache := [], access_order := [], current_size := 0 }

/-- `ModelCache.cleanup_expired`: collect the expired keys in dict order,
then remove each; returns the number of collected keys. -/
def ModelCache.cleanup_expired (s : ModelCache) (now : Int) : Nat × ModelCache :=
  let expired_keys := (s.cache.filter (fun e => e.expired now)).map (fun e => e.key)
  (expired_keys.length, expired_keys.foldl (fun st k => (st.remove_entry k).2) s)

/-- `entry.metadata.get(k)` guarded by the truthiness check on
`entry.metadata`. -/
def metaGet (md : Option (List (String × String))) (k : String) : Option String :=
  match md with
  | some l => l.lookup k
  | none => none

/-- Python truthiness of `entry.metadata` (`None` and `{}` are falsy). -/
def metaTruthy (md : Option (List (String × String))) : Bool :=
  match md with
  | some l => !l.isEmpty
  | none => false

/-- `key.startswith(p)`, computed on the underlying character lists so
that closed instances reduce inside the kernel (extensionally equal to
`String.startsWith`). -/
def strStartsWith (s p : String) : Bool :=
  p.data.isPrefixOf s.data

/-- `ModelCache.get_model(model_id, version)`: a plain `get` under the
composite key. -/
def ModelCache.get_model (s : ModelCache) (now : Int) (model_id : String)
    (version : String) : Option Nat × ModelCache :=
  s.get now ("model:" ++ model_id ++ ":" ++ version)

/-- `ModelCache.get_latest_model`: scan the dict in order for
model-weight entries of the given model id, track the version of the entry
with the greatest `created_at`, then fetch it through `get_model`; the
final `if latest_version:` makes both a missing and an empty version
string answer `None`. -/
def ModelCache.get_latest_model (s : ModelCache) (now : Int) (model_id : String) :
    Option Nat × ModelCache :=
  let scan :=
    s.cache.foldl
      (fun (acc : Option String × Option Int) e =>
        if strStartsWith e.key ("model:" ++ model_id ++ ":") && metaTruthy e.metadata then
          if metaGet e.metadata "type" == some "model_weights" then
            match acc.2 with
            | none => (metaGet e.metadata "version", some e.created_at)
            | some ts =>
                if e.created_at > ts then (metaGet e.metadata "version", some e.created_at)
                else acc
          else acc
        else acc)
      (none, none)
  match scan.1 with
  | some v => if v ≠ "" then s.get_model now model_id v else (none, s)
  | none => (none, s)

/-- The dynamic call `self.model_cache.get_model(*args)` as written in
`FogNode.request_model`: `ModelCache.get_model` declares two required
positional parameters (`model_id` and `version`), so a call supplying any
other number of arguments raises `TypeError` before the cache is touched. -/
def call_get_model (s : ModelCache) (now : Int) (args : List String) :
    Except String (Option Nat × ModelCache) :=
  match args with
  | [model_id, version] => Except.ok (s.get_model now model_id version)
  | _ => Except.error "TypeError: get_model missing required positional argument"

/-- `FogNode.request_model` (src/fog_node/__init__.py): when
`model_version` is truthy (not `None`, not empty) it calls
`self.model_cache.get_model(model_version)` — one argument — and
otherwise falls back to `get_latest_model()` with its default model id
`global`.  `device_id` is accepted and ignored, as in the source. -/
def request_model (s : ModelCache) (now : Int) (device_id : String)
    (model_version : Option String) : Except String (Option Nat × ModelCache) :=
  match model_version with
  | some v =>
      if v ≠ "" then call_get_model s now [v]
      else Except.ok (s.get_latest_model now "global")
  | none => Except.ok (s.get_latest_model now "global")

/-! ## Cache invariants (spec: size accounting and LRU bookkeeping) -/

/-- Total serialized size of the entries, `Σ entry.size_bytes`. -/
def sumSizes (c : List CacheEntry) : Int :=
  (c.map (fun e => (e.size_bytes : Int))).sum

/-- The cache invariants of the specification, plus well-formedness of the
dict representation (no duplicate keys): the size counter is exact and
within budget, and the LRU list is a permutation of the key set. -/
structure CacheInv (s : ModelCache) : Prop where
  nodup_keys : (cacheKeys s.cache).Nodup
  size_eq : s.current_size = sumSizes s.cache
  size_le : s.current_size ≤ s.max_size_bytes
  perm_order : s.access_order.Perm (cacheKeys s.cache)

/-! ## Association-list lemmas -/

theorem lookupEntry_key {c : List CacheEntry} {k : String} {e : CacheEntry}
    (h : lookupEntry c k = some e) : e.key = k := by
  have := List.find?_some h
  simpa using this

theorem lookupEntry_mem {c : List CacheEntry} {k : String} {e : CacheEntry}
    (h : lookupEntry c k = some e) : e ∈ c :=
  List.mem_of_find?_eq_some h

theorem mem_cacheKeys_iff_lookup {c : List CacheEntry} {k : String} :
    k ∈ cacheKeys c ↔ (lookupEntry c k).isSome := by
  simp [cacheKeys, lookupEntry, List.find?_isSome]

theorem cacheKeys_eraseEntry (c : List CacheEntry) (k : String) :
    cacheKeys (eraseEntry c k) = (cacheKeys c).erase k := by
  induction c with
  | nil => rfl
  | cons e t ih =>
      by_cases h : e.key = k
      · simp [cacheKeys, eraseEntry, List.eraseP_cons, List.erase_cons, h]
      · simpa [cacheKeys, eraseEntry, List.eraseP_cons, List.erase_cons, h] using ih

theorem sumSizes_nil : sumSizes [] = 0 := rfl

theorem sumSizes_nonneg (c : List CacheEntry) : 0 ≤ sumSizes c := by
  apply List.sum_nonneg
  intro x hx
  simp only [List.mem_map] at hx
  obtain ⟨e, _, rfl⟩ := hx
  exact Int.ofNat_nonneg _

theorem sumSizes_eraseEntry {c : List CacheEntry} {k : String} {e : CacheEntry}
    (h : lookupEntry c k = some e) :
    sumSizes (eraseEntry c k) = sumSizes c - (e.size_bytes : Int) := by
  induction c with
  | nil => simp [lookupEntry] at h
  | cons x t ih =>
      by_cases hx : x.key = k
      · have hex : e = x := by
          simp [lookupEntry, List.find?_cons, hx] at h
          exact h.symm
        subst hex
        simp [eraseEntry, List.eraseP_cons, hx, sumSizes]
      · have hx2 : (x.key == k) = false := by simpa using hx
        have ht : lookupEntry t k = some e := by
          simpa [lookupEntry, List.find?_cons, hx2] using h
        have hrec := ih ht
        simp only [eraseEntry] at hrec ⊢
        simp only [List.eraseP_cons, hx2, cond_false]
        simp only [sumSizes, List.map_cons, List.sum_cons] at hrec ⊢
        omega

theorem sumSizes_append (c d : List CacheEntry) :
    sumSizes (c ++ d) = sumSizes c + sumSizes d := by
  simp [sumSizes]

/-! ## Invariant preservation for the cache operations -/

theorem current_size_nonneg {s : ModelCache} (h : CacheInv s) : 0 ≤ s.current_size := by
  rw [h.size_eq]
  exact sumSizes_nonneg s.cache

theorem remove_entry_spec (s : ModelCache) (k : String) (h : CacheInv s) :
    CacheInv (s.remove_entry k).2 ∧
    (s.remove_entry k).2.max_size_bytes = s.max_size_bytes ∧
    (s.remove_entry k).2.default_ttl = s.default_ttl ∧
    (s.remove_entry k).2.evictions = s.evictions ∧
    (s.remove_entry k).2.current_size ≤ s.current_size := by
  match hl : lookupEntry s.cache k with
  | none =>
      simp only [ModelCache.remove_entry, hl]
      exact ⟨h, trivial, trivial, trivial, le_refl _⟩
  | some e =>
      have hnn : (0 : Int) ≤ (e.size_bytes : Int) := Int.ofNat_nonneg _
      have hle := h.size_le
      simp only [ModelCache.remove_entry, hl]
      refine ⟨⟨?_, ?_, ?_, ?_⟩, trivial, trivial, trivial, ?_⟩
      · show (cacheKeys (eraseEntry s.cache k)).Nodup
        rw [cacheKeys_eraseEntry]
        exact h.nodup_keys.erase k
      · show s.current_size - (e.size_bytes : Int) = sumSizes (eraseEntry s.cache k)
        rw [sumSizes_eraseEntry hl, h.size_eq]
      · show s.current_size - (e.size_bytes : Int) ≤ s.max_size_bytes
        omega
      · show (s.access_order.erase k).Perm (cacheKeys (eraseEntry s.cache k))
        rw [cacheKeys_eraseEntry]
        exact h.perm_order.erase k
      · show s.current_size - (e.size_bytes : Int) ≤ s.current_size
        omega

/-- Changing only the statistics counters does not affect the invariant. -/
theorem CacheInv.stats {s : ModelCache} (h : CacheInv s) (t : ModelCache)
    (hc : t.cache = s.cache) (hm : t.max_size_bytes = s.max_size_bytes)
    (hs : t.current_size = s.current_size) (ho : t.access_order = s.access_order) :
    CacheInv t := by
  refine ⟨?_, ?_, ?_, ?_⟩
  · rw [hc]; exact h.nodup_keys
  · rw [hc, hs]; exact h.size_eq
  · rw [hs, hm]; exact h.size_le
  · rw [ho, hc]; exact h.perm_order

theorem make_space_aux_spec (order : List String) :
    ∀ (s : ModelCache) (required : Int), CacheInv s → order = s.access_order →
    ∃ s2, ModelCache.make_space_aux order s required = some s2 ∧
      CacheInv s2 ∧
      s2.max_size_bytes = s.max_size_bytes ∧
      s2.default_ttl = s.default_ttl ∧
      s.evictions ≤ s2.evictions ∧
      s2.current_size ≤ s.current_size ∧
      (s2.current_size + required ≤ s2.max_size_bytes ∨ s2.cache = []) := by
  induction order with
  | nil =>
      intro s required h _ho
      by_cases hfit : s.current_size + required ≤ s.max_size_bytes
      · exact ⟨s, by simp [ModelCache.make_space_aux, hfit], h, rfl, rfl, le_refl _, le_refl _,
          Or.inl hfit⟩
      · refine ⟨s, by simp [ModelCache.make_space_aux, hfit], h, rfl, rfl, le_refl _, le_refl _,
          Or.inr ?_⟩
        have hperm := h.perm_order
        rw [← _ho] at hperm
        have hkeys : cacheKeys s.cache = [] := hperm.symm.eq_nil
        simpa [cacheKeys] using hkeys
  | cons lru rest ih =>
      intro s required h ho
      by_cases hfit : s.current_size + required ≤ s.max_size_bytes
      · exact ⟨s, by simp [ModelCache.make_space_aux, hfit], h, rfl, rfl, le_refl _, le_refl _,
          Or.inl hfit⟩
      · have hmem : lru ∈ cacheKeys s.cache := by
          have : lru ∈ s.access_order := by rw [← ho]; exact List.mem_cons_self _ _
          exact h.perm_order.mem_iff.mp this
        have hsome : (lookupEntry s.cache lru).isSome := mem_cacheKeys_iff_lookup.mp hmem
        match he : lookupEntry s.cache lru with
        | none => rw [he] at hsome; simp at hsome
        | some e =>
            obtain ⟨h1, hmax1, httl1, hev1, hcur1⟩ := remove_entry_spec s lru h
            set s1 := (s.remove_entry lru).2 with hs1
            have horder1 : s1.access_order = rest := by
              rw [hs1]
              simp only [ModelCache.remove_entry, he]
              rw [← ho]
              exact List.erase_cons_head lru rest
            have h1b : CacheInv { s1 with evictions := s1.evictions + 1 } :=
              h1.stats _ rfl rfl rfl rfl
            obtain ⟨s2, hrun, hinv2, hmax2, httl2, hev2, hcur2, hfin⟩ :=
              ih { s1 with evictions := s1.evictions + 1 } required h1b horder1.symm
            refine ⟨s2, ?_, hinv2, by rw [hmax2]; exact hmax1, by rw [httl2]; exact httl1,
              ?_, ?_, hfin⟩
            · simp only [ModelCache.make_space_aux, if_neg hfit, he]
              exact hrun
            · simp only at hev2
              omega
            · simp only at hcur2
              omega

theorem any_key_iff {c : List CacheEntry} {k : String} :
    c.any (fun x => x.key == k) = true ↔ k ∈ cacheKeys c := by
  simp [cacheKeys, List.any_eq_true]

theorem dictInsertEntry_not_mem {c : List CacheEntry} {e : CacheEntry}
    (h : e.key ∉ cacheKeys c) : dictInsertEntry c e = c ++ [e] := by
  rw [dictInsertEntry, if_neg]
  intro hc
  exact h (any_key_iff.mp hc)

theorem cacheKeys_append (c d : List CacheEntry) :
    cacheKeys (c ++ d) = cacheKeys c ++ cacheKeys d := by
  simp [cacheKeys]

/-- Inserting a fresh entry at the back preserves all cache invariants,
provided it fits. -/
theorem insert_fresh_inv {s : ModelCache} (h : CacheInv s) (entry : CacheEntry)
    (hfresh : entry.key ∉ cacheKeys s.cache)
    (hfit : s.current_size + (entry.size_bytes : Int) ≤ s.max_size_bytes) :
    CacheInv
      { s with
        cache := dictInsertEntry s.cache entry
        current_size := s.current_size + (entry.size_bytes : Int)
        access_order := s.access_order ++ [entry.key] } := by
  rw [dictInsertEntry_not_mem hfresh]
  refine ⟨?_, ?_, ?_, ?_⟩
  · show (cacheKeys (s.cache ++ [entry])).Nodup
    rw [cacheKeys_append]
    rw [List.nodup_append]
    exact ⟨h.nodup_keys, List.nodup_singleton _, by
      intro a ha hb
      simp only [cacheKeys, List.map_cons, List.map_nil, List.mem_singleton] at hb
      subst hb
      exact hfresh ha⟩
  · show s.current_size + (entry.size_bytes : Int) = sumSizes (s.cache ++ [entry])
    rw [sumSizes_append, h.size_eq]
    simp [sumSizes]
  · exact hfit
  · show (s.access_order ++ [entry.key]).Perm (cacheKeys (s.cache ++ [entry]))
    rw [cacheKeys_append]
    exact h.perm_order.append_right _

theorem put_spec (s : ModelCache) (now : Int) (key : String) (data : Nat)
    (size_bytes : Nat) (ttl : Option Int) (metadata : Option (List (String × String)))
    (h : CacheInv s) :
    ∃ b s2, s.put now key data size_bytes ttl metadata = some (b, s2) ∧
      CacheInv s2 ∧ s.evictions ≤ s2.evictions := by
  by_cases hbig : (size_bytes : Int) > s.max_size_bytes
  · exact ⟨false, s, by simp [ModelCache.put, hbig], h, le_refl _⟩
  · obtain ⟨s1, hrun, h1, hmax1, _httl1, hev1, hcur1, hfin⟩ :=
      make_space_aux_spec s.access_order s (size_bytes : Int) h rfl
    by_cases hlk : (lookupEntry s1.cache key).isSome
    · match he : lookupEntry s1.cache key with
      | none => rw [he] at hlk; simp at hlk
      | some e =>
          obtain ⟨h2, hmax2, _httl2, hev2, hcur2⟩ := remove_entry_spec s1 key h1
          have hkeys2 : cacheKeys (s1.remove_entry key).2.cache
              = (cacheKeys s1.cache).erase key := by
            simp only [ModelCache.remove_entry, he]
            exact cacheKeys_eraseEntry s1.cache key
          have hfresh : key ∉ cacheKeys (s1.remove_entry key).2.cache := by
            rw [hkeys2]
            exact h1.nodup_keys.not_mem_erase
          have hfit : (s1.remove_entry key).2.current_size + (size_bytes : Int) ≤
              (s1.remove_entry key).2.max_size_bytes := by
            rcases hfin with hfin | hfin
            · rw [hmax2]
              omega
            · exfalso
              rw [hfin] at he
              simp [lookupEntry] at he
          have heval : s.put now key data size_bytes ttl metadata =
              some (true,
                { (s1.remove_entry key).2 with
                  cache := dictInsertEntry (s1.remove_entry key).2.cache
                    { key := key, data := data, size_bytes := size_bytes,
                      created_at := now, last_accessed := now, access_count := 0,
                      ttl := some (pyOrTtl ttl s.default_ttl),
                      metadata := some (pyOrMeta metadata) }
                  current_size := (s1.remove_entry key).2.current_size + (size_bytes : Int)
                  access_order := (s1.remove_entry key).2.access_order ++ [key] }) := by
            simp only [ModelCache.put, ModelCache.make_space, if_neg hbig, hrun, hlk, ite_true]
          refine ⟨true, _, heval, ?_, ?_⟩
          · exact insert_fresh_inv h2 _ hfresh hfit
          · show s.evictions ≤ (s1.remove_entry key).2.evictions
            omega
    · have hfresh : key ∉ cacheKeys s1.cache := by
        rw [mem_cacheKeys_iff_lookup]
        exact fun hc => hlk hc
      have hfit : s1.current_size + (size_bytes : Int) ≤ s1.max_size_bytes := by
        rcases hfin with hfin | hfin
        · exact hfin
        · have hz : s1.current_size = 0 := by rw [h1.size_eq, hfin]; rfl
          rw [hz, hmax1]
          omega
      have heval : s.put now key data size_bytes ttl metadata =
          some (true,
            { s1 with
              cache := dictInsertEntry s1.cache
                { key := key, data := data, size_bytes := size_bytes,
                  created_at := now, last_accessed := now, access_count := 0,
                  ttl := some (pyOrTtl ttl s.default_ttl),
                  metadata := some (pyOrMeta metadata) }
              current_size := s1.current_size + (size_bytes : Int)
              access_order := s1.access_order ++ [key] }) := by
        simp only [ModelCache.put, ModelCache.make_space, if_neg hbig, hrun, if_neg hlk]
      refine ⟨true, _, heval, ?_, ?_⟩
      · exact insert_fresh_inv h1 _ hfresh hfit
      · show s.evictions ≤ s1.evictions
        omega

theorem cacheKeys_dictInsert_replace {c : List CacheEntry} {e1 : CacheEntry}
    (hmem : e1.key ∈ cacheKeys c) : cacheKeys (dictInsertEntry c e1) = cacheKeys c := by
  rw [dictInsertEntry, if_pos (any_key_iff.mpr hmem)]
  simp only [cacheKeys, List.map_map]
  apply List.map_congr_left
  intro x _
  by_cases hx : x.key = e1.key
  · simp [Function.comp, hx]
  · simp [Function.comp, hx]

theorem dictReplace_of_not_mem {c : List CacheEntry} {e1 : CacheEntry}
    (h : ∀ x ∈ c, x.key ≠ e1.key) :
    c.map (fun x => if x.key == e1.key then e1 else x) = c := by
  induction c with
  | nil => rfl
  | cons x t ih =>
      have hx : (x.key == e1.key) = false := by
        simpa using h x (List.mem_cons_self _ _)
      simp only [List.map_cons, hx, Bool.false_eq_true, if_false]
      rw [ih (fun y hy => h y (List.mem_cons_of_mem _ hy))]

theorem sumSizes_dictInsert_replace {c : List CacheEntry} {e e1 : CacheEntry}
    (hnd : (cacheKeys c).Nodup) (hl : lookupEntry c e1.key = some e) :
    sumSizes (dictInsertEntry c e1)
      = sumSizes c - (e.size_bytes : Int) + (e1.size_bytes : Int) := by
  have hmem : e1.key ∈ cacheKeys c :=
    mem_cacheKeys_iff_lookup.mpr (by rw [hl]; rfl)
  rw [dictInsertEntry, if_pos (any_key_iff.mpr hmem)]
  clear hmem
  induction c with
  | nil => simp [lookupEntry] at hl
  | cons x t ih =>
      by_cases hx : x.key = e1.key
      · have hex : e = x := by
          simp [lookupEntry, List.find?_cons, hx] at hl
          exact hl.symm
        have hxb : (x.key == e1.key) = true := by simpa using hx
        have htail : ∀ y ∈ t, y.key ≠ e1.key := by
          intro y hy
          simp only [cacheKeys, List.map_cons, List.nodup_cons] at hnd
          intro hcon
          exact hnd.1 (hx ▸ hcon ▸ (List.mem_map.mpr ⟨y, hy, rfl⟩))
        simp only [List.map_cons, if_pos hxb]
        rw [dictReplace_of_not_mem htail]
        simp only [sumSizes, List.map_cons, List.sum_cons]
        rw [hex]
        omega
      · have hxb : ¬((x.key == e1.key) = true) := by simpa using hx
        have hl2 : lookupEntry t e1.key = some e := by
          simpa [lookupEntry, List.find?_cons, hx] using hl
        have hnd2 : (cacheKeys t).Nodup := by
          simp only [cacheKeys, List.map_cons, List.nodup_cons] at hnd
          exact hnd.2
        have hrec := ih hnd2 hl2
        simp only [List.map_cons, if_neg hxb]
        simp only [sumSizes, List.map_cons, List.sum_cons] at hrec ⊢
        omega

theorem get_inv (s : ModelCache) (now : Int) (key : String) (h : CacheInv s) :
    CacheInv (s.get now key).2 := by
  match he : lookupEntry s.cache key with
  | none =>
      simp only [ModelCache.get, he]
      exact h.stats _ rfl rfl rfl rfl
  | some e =>
      have hs0 : CacheInv { s with total_requests := s.total_requests + 1 } :=
        h.stats _ rfl rfl rfl rfl
      by_cases hex : e.expired now
      · have hrm := (remove_entry_spec { s with total_requests := s.total_requests + 1 } key hs0).1
        simp only [ModelCache.get, he, hex, if_true]
        exact hrm.stats _ rfl rfl rfl rfl
      · have hmem : key ∈ cacheKeys s.cache :=
          mem_cacheKeys_iff_lookup.mpr (by rw [he]; rfl)
        have hkey : e.key = key := lookupEntry_key he
        simp only [ModelCache.get, he, hex, Bool.false_eq_true, if_false]
        refine ⟨?_, ?_, ?_, ?_⟩
        · show (cacheKeys (dictInsertEntry s.cache _)).Nodup
          rw [cacheKeys_dictInsert_replace (by rw [hkey]; exact hmem)]
          exact h.nodup_keys
        · show s.current_size = sumSizes (dictInsertEntry s.cache _)
          rw [sumSizes_dictInsert_replace h.nodup_keys (by rw [hkey]; exact he)]
          rw [h.size_eq]
          dsimp only
          omega
        · exact h.size_le
        · show (s.access_order.erase key ++ [key]).Perm (cacheKeys (dictInsertEntry s.cache _))
          rw [cacheKeys_dictInsert_replace (by rw [hkey]; exact hmem)]
          have hmo : key ∈ s.access_order := h.perm_order.mem_iff.mpr hmem
          exact ((List.perm_append_singleton _ _).trans
            (List.perm_cons_erase hmo).symm).trans h.perm_order

theorem containsKey_inv (s : ModelCache) (now : Int) (key : String) (h : CacheInv s) :
    CacheInv (s.containsKey now key).2 := by
  match he : lookupEntry s.cache key with
  | none => simpa [ModelCache.containsKey, he] using h
  | some e =>
      by_cases hex : e.expired now
      · simp only [ModelCache.containsKey, he, hex, if_true]
        exact (remove_entry_spec s key h).1
      · simpa [ModelCache.containsKey, he, hex] using h

theorem removeKey_inv (s : ModelCache) (key : String) (h : CacheInv s) :
    CacheInv (s.removeKey key).2 :=
  (remove_entry_spec s key h).1

theorem clearAll_inv (s : ModelCache) (h : CacheInv s) : CacheInv s.clearAll := by
  have h0 : (0 : Int) ≤ s.current_size := current_size_nonneg h
  have hle := h.size_le
  exact ⟨List.nodup_nil, rfl, by show (0 : Int) ≤ s.max_size_bytes; omega, List.Perm.nil⟩

theorem foldl_remove_entry_inv (ks : List String) :
    ∀ s : ModelCache, CacheInv s →
      CacheInv (ks.foldl (fun st k => (st.remove_entry k).2) s) := by
  induction ks with
  | nil => intro s h; exact h
  | cons k t ih =>
      intro s h
      exact ih _ (remove_entry_spec s k h).1

theorem cleanup_expired_inv (s : ModelCache) (now : Int) (h : CacheInv s) :
    CacheInv (s.cleanup_expired now).2 :=
  foldl_remove_entry_inv _ s h

/-- C7: every cache operation — `put`, `get`, `contains`, `remove`,
`clear` and `cleanup_expired` — preserves the invariants that
`current_size` equals `Σ entry.size_bytes`, that `current_size` stays
within `max_size_bytes`, and that the LRU access-order list is a
permutation of the key set (each key exactly once).  For `put` the result
is also shown to be defined (the eviction loop terminates from any
well-formed state). -/
theorem cache_ops_preserve_invariants (s : ModelCache) (h : CacheInv s) :
    (∀ now key data size_bytes ttl metadata, ∃ b s2,
        s.put now key data size_bytes ttl metadata = some (b, s2) ∧ CacheInv s2) ∧
    (∀ now key, CacheInv (s.get now key).2) ∧
    (∀ now key, CacheInv (s.containsKey now key).2) ∧
    (∀ key, CacheInv (s.removeKey key).2) ∧
    CacheInv s.clearAll ∧
    (∀ now, CacheInv (s.cleanup_expired now).2) := by
  refine ⟨?_, ?_, ?_, ?_, ?_, ?_⟩
  · intro now key data size_bytes ttl metadata
    obtain ⟨b, s2, heval, hinv, _⟩ := put_spec s now key data size_bytes ttl metadata h
    exact ⟨b, s2, heval, hinv⟩
  · intro now key; exact get_inv s now key h
  · intro now key; exact containsKey_inv s now key h
  · intro key; exact removeKey_inv s key h
  · exact clearAll_inv s h
  · intro now; exact cleanup_expired_inv s now h

/-- Witness for `cache_ops_preserve_invariants`: the empty 1000-byte cache
satisfies the invariant, and a concrete `put` on it preserves it. -/
theorem cache_ops_preserve_invariants_witness :
    ∃ b s2, (mkModelCache 1000 86400).put 0 "a" 7 100 none none = some (b, s2) ∧
      CacheInv s2 :=
  (cache_ops_preserve_invariants (mkModelCache 1000 86400)
    ⟨List.nodup_nil, rfl, by decide, List.Perm.nil⟩).1 0 "a" 7 100 none none

/-! ## The eviction scenarios of the specification (claims C3, C4) -/

/-- The spec scenario: `max_size_bytes = 1000`; `put("a", 600B)` at t=0,
`put("b", 300B)` at t=1, `get("a")` at t=2, `put("c", 500B)` at t=3. -/
def c3_run : Option ModelCache :=
  let s0 := mkModelCache 1000 86400
  (s0.put 0 "a" 1 600 none none).bind fun r1 =>
  ((r1.2).put 1 "b" 2 300 none none).bind fun r2 =>
  let r3 := (r2.2).get 2 "a"
  ((r3.2).put 3 "c" 3 500 none none).map fun r4 => r4.2

/-- C3 (counterexample): after the scenario the cache holds only `c` (not
`a` and `c`) and the eviction counter is `2` (not `1`): when `c` (500B)
arrives, evicting the LRU entry `b` (300B) still leaves `600 + 500 >
1000`, so the loop also evicts `a`. -/
theorem c3_scenario_counterexample :
    c3_run.map (fun s => (cacheKeys s.cache, s.evictions)) = some (["c"], 2) ∧
    c3_run.map (fun s => decide ("a" ∈ cacheKeys s.cache)) = some false := by
  constructor <;> rfl

/-- C3 (amended): the scenario leaves the cache containing exactly `c`,
with both `b` (as least-recently-used) and then `a` evicted — the claimed
final content `{a, c}` would occupy 1100 of the 1000 bytes — and the
evictions counter equal to `2`. -/
theorem c3_scenario :
    c3_run.map (fun s => (cacheKeys s.cache, s.evictions, s.current_size, s.access_order))
      = some (["c"], 2, 500, ["c"]) := by
  rfl

/-- Re-put scenario for C4: `max_size_bytes = 1000`; `put("a", 300B)`,
`put("b", 600B)`, then `put("b", 650B)` — which would fit (300 + 650 ≤
1000) if the old `b` entry were freed first. -/
def c4_run : Option ModelCache :=
  let s0 := mkModelCache 1000 86400
  (s0.put 0 "a" 1 300 none none).bind fun r1 =>
  ((r1.2).put 1 "b" 2 600 none none).bind fun r2 =>
  ((r2.2).put 2 "b" 3 650 none none).map fun r3 => r3.2

/-- C4 (counterexample): re-putting `b` at 650 bytes fits once the old
600-byte `b` is freed, yet the run evicts the other entry `a` and bumps
the evictions counter to 2 — because `put` calls `_make_space` before it
removes the existing entry. -/
theorem c4_reput_counterexample :
    c4_run.map (fun s => (cacheKeys s.cache, s.evictions)) = some (["b"], 2) ∧
    c4_run.map (fun s => decide ("a" ∈ cacheKeys s.cache)) = some false := by
  constructor <;> rfl

theorem make_space_aux_strict (s : ModelCache) (required : Int) (h : CacheInv s)
    (hover : ¬(s.current_size + required ≤ s.max_size_bytes))
    (hne : s.access_order ≠ []) :
    ∀ s1, ModelCache.make_space_aux s.access_order s required = some s1 →
      s.evictions < s1.evictions := by
  intro s1 hrun
  match ho : s.access_order with
  | [] => exact absurd ho hne
  | lru :: rest =>
      have hmem : lru ∈ cacheKeys s.cache := by
        have : lru ∈ s.access_order := by rw [ho]; exact List.mem_cons_self _ _
        exact h.perm_order.mem_iff.mp this
      have hsome : (lookupEntry s.cache lru).isSome := mem_cacheKeys_iff_lookup.mp hmem
      match he : lookupEntry s.cache lru with
      | none => rw [he] at hsome; simp at hsome
      | some e =>
          obtain ⟨h1, _, _, hev1, _⟩ := remove_entry_spec s lru h
          have horder1 : (s.remove_entry lru).2.access_order = rest := by
            simp only [ModelCache.remove_entry, he]
            rw [ho]
            exact List.erase_cons_head lru rest
          have h1b : CacheInv
              { (s.remove_entry lru).2 with evictions := (s.remove_entry lru).2.evictions + 1 } :=
            h1.stats _ rfl rfl rfl rfl
          obtain ⟨s2, hrun2, _, _, _, hev2, _, _⟩ :=
            make_space_aux_spec rest _ required h1b horder1.symm
          rw [ho] at hrun
          rw [ModelCache.make_space_aux, if_neg hover, he] at hrun
          rw [hrun2] at hrun
          have hss : s2 = s1 := by injection hrun
          subst hss
          simp only at hev2
          omega

/-- C4 (amended): when `put` is called for a key that already has an
entry, the LRU eviction loop runs first, against the un-reduced
`current_size` that still counts the old entry; the old entry is removed
only afterwards.  Consequently, whenever the new data does not fit
alongside the old entry (`current_size + size_bytes > max_size_bytes`) —
even if it would fit once the old entry were freed — at least one LRU
eviction takes place and the evictions counter strictly increases. -/
theorem put_existing_key_still_evicts (s : ModelCache) (now : Int) (key : String)
    (data : Nat) (size_bytes : Nat) (ttl : Option Int)
    (metadata : Option (List (String × String)))
    (h : CacheInv s) (e : CacheEntry)
    (hmem : lookupEntry s.cache key = some e)
    (hsize : (size_bytes : Int) ≤ s.max_size_bytes)
    (hover : s.current_size + (size_bytes : Int) > s.max_size_bytes) :
    ∃ b s2, s.put now key data size_bytes ttl metadata = some (b, s2) ∧
      s.evictions < s2.evictions := by
  have hbig : ¬((size_bytes : Int) > s.max_size_bytes) := by omega
  obtain ⟨s1, hrun, h1, hmax1, _httl1, _hev1, _hcur1, _hfin⟩ :=
    make_space_aux_spec s.access_order s (size_bytes : Int) h rfl
  have hne : s.access_order ≠ [] := by
    have hk : key ∈ cacheKeys s.cache :=
      mem_cacheKeys_iff_lookup.mpr (by rw [hmem]; rfl)
    have : key ∈ s.access_order := h.perm_order.mem_iff.mpr hk
    exact List.ne_nil_of_mem this
  have hstrict : s.evictions < s1.evictions :=
    make_space_aux_strict s (size_bytes : Int) h (by omega) hne s1 hrun
  by_cases hlk : (lookupEntry s1.cache key).isSome
  · have heval : s.put now key data size_bytes ttl metadata =
        some (true,
          { (s1.remove_entry key).2 with
            cache := dictInsertEntry (s1.remove_entry key).2.cache
              { key := key, data := data, size_bytes := size_bytes,
                created_at := now, last_accessed := now, access_count := 0,
                ttl := some (pyOrTtl ttl s.default_ttl),
                metadata := some (pyOrMeta metadata) }
            current_size := (s1.remove_entry key).2.current_size + (size_bytes : Int)
            access_order := (s1.remove_entry key).2.access_order ++ [key] }) := by
      simp only [ModelCache.put, ModelCache.make_space, if_neg hbig, hrun, hlk, ite_true]
    refine ⟨true, _, heval, ?_⟩
    show s.evictions < (s1.remove_entry key).2.evictions
    have hev2 := (remove_entry_spec s1 key h1).2.2.2.1
    omega
  · have heval : s.put now key data size_bytes ttl metadata =
        some (true,
          { s1 with
            cache := dictInsertEntry s1.cache
              { key := key, data := data, size_bytes := size_bytes,
                created_at := now, last_accessed := now, access_count := 0,
                ttl := some (pyOrTtl ttl s.default_ttl),
                metadata := some (pyOrMeta metadata) }
            current_size := s1.current_size + (size_bytes : Int)
            access_order := s1.access_order ++ [key] }) := by
      simp only [ModelCache.put, ModelCache.make_space, if_neg hbig, hrun, if_neg hlk]
    refine ⟨true, _, heval, ?_⟩
    show s.evictions < s1.evictions
    omega

/-- The cache state after `put("a", 300B)` and `put("b", 600B)` into an
empty 1000-byte cache, written out explicitly. -/
def c4_pre : ModelCache :=
  { max_size_bytes := 1000
    default_ttl := 86400
    cache :=
      [{ key := "a", data := 1, size_bytes := 300, created_at := 0, last_accessed := 0,
         access_count := 0, ttl := some 86400, metadata := some [] },
       { key := "b", data := 2, size_bytes := 600, created_at := 1, last_accessed := 1,
         access_count := 0, ttl := some 86400, metadata := some [] }]
    current_size := 900
    access_order := ["a", "b"]
    hits := 0
    misses := 0
    evictions := 0
    total_requests := 0 }

/-- Witness for `put_existing_key_still_evicts`: re-putting `b` with 650
bytes (which fits once the old 600-byte `b` is freed: 300 + 650 ≤ 1000)
still strictly increases the evictions counter. -/
theorem put_existing_key_still_evicts_witness :
    ∃ b s2, c4_pre.put 2 "b" 3 650 none none = some (b, s2) ∧
      c4_pre.evictions < s2.evictions :=
  put_existing_key_still_evicts c4_pre 2 "b" 3 650 none none
    ⟨by decide, by decide, by decide, List.Perm.refl _⟩
    { key := "b", data := 2, size_bytes := 600, created_at := 1, last_accessed := 1,
      access_count := 0, ttl := some 86400, metadata := some [] }
    (by rfl) (by decide) (by decide)

/-! ## `FogNode.request_model` (claim C10) -/

/-- A cache state holding one cached global model, used to exercise
`request_model`. -/
def c10_state : ModelCache :=
  { max_size_bytes := 1000
    default_ttl := 86400
    cache :=
      [{ key := "model:global:v1", data := 42, size_bytes := 10, created_at := 0,
         last_accessed := 0, access_count := 0, ttl := none,
         metadata := some [("model_id", "global"), ("version", "v1"),
                           ("type", "model_weights")] }]
    current_size := 10
    access_order := ["model:global:v1"]
    hits := 0
    misses := 0
    evictions := 0
    total_requests := 0 }

/-- C10 (counterexample): `model_version = ""` is not `None`, yet
`request_model` takes the `else` branch (Python truthiness) and returns
the cached model through `get_latest_model` instead of failing. -/
theorem request_model_empty_version_counterexample :
    (match request_model c10_state 5 "dev-1" (some "") with
      | Except.ok r => some r.1
      | Except.error _ => none) = some (some 42) := by
  decide

/-- C10 (amended): for every truthy (non-`None`, non-empty)
`model_version`, `request_model` invokes `ModelCache.get_model` with a
single argument although it requires both `model_id` and `version`, so
the call fails with a missing-argument `TypeError` for every cache
state; it never returns a cached model. -/
theorem request_model_version_always_errors (s : ModelCache) (now : Int)
    (device_id : String) (v : String) (hv : v ≠ "") :
    ∃ msg, request_model s now device_id (some v) = Except.error msg := by
  refine ⟨"TypeError: get_model missing required positional argument", ?_⟩
  simp only [request_model, if_pos hv]
  rfl

/-- Witness for `request_model_version_always_errors` at version `v1` on
the one-model cache. -/
theorem request_model_version_always_errors_witness :
    ∃ msg, request_model c10_state 5 "dev-1" (some "v1") = Except.error msg :=
  request_model_version_always_errors c10_state 5 "dev-1" "v1" (by decide)

/-! ## Edge coordinator (src/fog_node/edge_coordinator.py) -/

/-- `EdgeDeviceStatus` enum. -/
inductive EdgeDeviceStatus where
  | online
  | offline
  | busy
  | idle
  | overloaded
  | low_battery
deriving DecidableEq, Repr

/-- The capability entries the coordinator reads out of the
`capabilities` dict; a `none` field is an absent key, and numeric values
are exact rationals standing for Python floats. -/
structure Capabilities where
  memory_gb : Option ℚ
  cpu_cores : Option ℚ
  sensors : Option (List String)
  battery_level : Option ℚ
  network_bandwidth_mbps : Option ℚ
deriving DecidableEq, Repr

/-- `EdgeDeviceInfo` dataclass. -/
structure EdgeDeviceInfo where
  device_id : String
  device_type : String
  capabilities : Capabilities
  status : EdgeDeviceStatus
  last_seen : Int
  connected_at : Int
  current_workload : Option String
  performance_metrics : List (String × ℚ)
  location : Option (List (String × ℚ))
deriving DecidableEq, Repr

/-- `WorkloadAssignment` dataclass; `status` is the source's string
("assigned", "running", "completed", "failed" or "cancelled"), and
`parameters` keeps only integer-valued entries (the coordinator reads only
`parameters.get("priority", 0)`). -/
structure WorkloadAssignment where
  workload_id : String
  device_id : String
  workload_type : String
  parameters : List (String × Int)
  assigned_at : Int
  expected_completion : Int
  status : String
deriving DecidableEq, Repr

/-- `EdgeCoordinator` state: the two Python dicts as insertion-ordered
association lists, and the `device_groups` dict of sets.  The monitoring
task handle, callbacks and timing parameters play no part in the modelled
transitions; `unregister_device` and `_check_device_health` (device
timeouts) are outside the claims and not modelled. -/
structure EdgeCoordinator where
  fog_node_id : String
  max_edge_devices : Nat
  connected_devices : List EdgeDeviceInfo
  workload_assignments : List WorkloadAssignment
  device_groups : List (String × List String)
deriving DecidableEq, Repr

/-- A fresh coordinator (`__init__`). -/
def mkEdgeCoordinator (fog_node_id : String) (max_edge_devices : Nat) : EdgeCoordinator :=
  { fog_node_id := fog_node_id
    max_edge_devices := max_edge_devices
    connected_devices := []
    workload_assignments := []
    device_groups := [] }

def lookupDevice (ds : List EdgeDeviceInfo) (id : String) : Option EdgeDeviceInfo :=
  ds.find? (fun d => d.device_id == id)

/-- Mutating `self.connected_devices[id]` in place. -/
def updateDevice (ds : List EdgeDeviceInfo) (id : String)
    (f : EdgeDeviceInfo → EdgeDeviceInfo) : List EdgeDeviceInfo :=
  ds.map (fun d => if d.device_id == id then f d else d)

def lookupAssignment (ws : List WorkloadAssignment) (id : String) : Option WorkloadAssignment :=
  ws.find? (fun a => a.workload_id == id)

/-- Mutating `self.workload_assignments[id]` in place. -/
def updateAssignment (ws : List WorkloadAssignment) (id : String)
    (f : WorkloadAssignment → WorkloadAssignment) : List WorkloadAssignment :=
  ws.map (fun a => if a.workload_id == id then f a else a)

/-- `self.workload_assignments[workload_id] = assignment` (dict
assignment: replace in place or append). -/
def dictInsertAssignment (ws : List WorkloadAssignment) (a : WorkloadAssignment) :
    List WorkloadAssignment :=
  if ws.any (fun x => x.workload_id == a.workload_id) then
    ws.map (fun x => if x.workload_id == a.workload_id then a else x)
  else
    ws ++ [a]

/-- `_update_device_groups`: create the per-type set if missing, then add
the device id (set semantics: no duplicates). -/
def updateDeviceGroups (gs : List (String × List String)) (device_type id : String) :
    List (String × List String) :=
  match gs.lookup device_type with
  | none => gs ++ [(device_type, [id])]
  | some members =>
      gs.map (fun p =>
        if p.1 == device_type then (p.1, if id ∈ members then members else members ++ [id])
        else p)

/-- `EdgeCoordinator.register_device`. -/
def EdgeCoordinator.register_device (s : EdgeCoordinator) (now : Int)
    (device_id device_type : String) (capabilities : Capabilities)
    (location : Option (List (String × ℚ))) : Bool × EdgeCoordinator :=
  if s.connected_devices.length ≥ s.max_edge_devices then (false, s)
  else if (lookupDevice s.connected_devices device_id).isSome then (false, s)
  else
    let device_info : EdgeDeviceInfo :=
      { device_id := device_id
        device_type := device_type
        capabilities := capabilities
        status := EdgeDeviceStatus.online
        last_seen := now
        connected_at := now
        current_workload := none
        performance_metrics := []
        location := location }
    (true,
      { s with
        connected_devices := s.connected_devices ++ [device_info]
        device_groups := updateDeviceGroups s.device_groups device_type device_id })

/-- `assignment.parameters.get("priority", 0)`. -/
def priorityOf (a : WorkloadAssignment) : Int :=
  (a.parameters.lookup "priority").getD 0

/-- Non-terminal assignment statuses, `["assigned", "running"]`. -/
def activeA (a : WorkloadAssignment) : Prop :=
  a.status = "assigned" ∨ a.status = "running"

instance (a : WorkloadAssignment) : Decidable (activeA a) := by
  unfold activeA
  infer_instance

/-- `EdgeCoordinator._cancel_device_workloads`: cancel the device's
non-terminal assignments — all of them, unless `critical_only` is set, in
which case those with `parameters["priority"] > 5` are kept — then idle
the device and clear its current workload. -/
def EdgeCoordinator.cancel_device_workloads (s : EdgeCoordinator) (device_id : String)
    (critical_only : Bool) : EdgeCoordinator :=
  let ws := s.workload_assignments.map (fun a =>
    if a.device_id = device_id ∧ activeA a then
      if critical_only = true ∧ priorityOf a > 5 then a
      else { a with status := "cancelled" }
    else a)
  let ds :=
    if (lookupDevice s.connected_devices device_id).isSome then
      updateDevice s.connected_devices device_id
        (fun d => { d with current_workload := none, status := EdgeDeviceStatus.idle })
    else s.connected_devices
  { s with workload_assignments := ws, connected_devices := ds }

/-- `_handle_overloaded_device`: cancel with `critical_only=False`; the
`device_overloaded` callbacks have no effect on the coordinator state. -/
def EdgeCoordinator.handle_overloaded_device (s : EdgeCoordinator) (device_id : String) :
    EdgeCoordinator :=
  s.cancel_device_workloads device_id false

/-- `_handle_low_battery_device`: cancel with `critical_only=True`. -/
def EdgeCoordinator.handle_low_battery_device (s : EdgeCoordinator) (device_id : String) :
    EdgeCoordinator :=
  s.cancel_device_workloads device_id true

/-- `performance_metrics.update(metrics)` for one key. -/
def dictInsertMetric (l : List (String × ℚ)) (kv : String × ℚ) : List (String × ℚ) :=
  if l.any (fun p => p.1 == kv.1) then
    l.map (fun p => if p.1 == kv.1 then kv else p)
  else l ++ [kv]

/-- `EdgeCoordinator.update_device_status`: unknown device returns
`False`; otherwise set the status and `last_seen`, merge the metrics when
truthy, run the status-specific handler, and return `True`. -/
def EdgeCoordinator.update_device_status (s : EdgeCoordinator) (now : Int)
    (device_id : String) (status : EdgeDeviceStatus)
    (metrics : Option (List (String × ℚ))) : Bool × EdgeCoordinator :=
  if (lookupDevice s.connected_devices device_id).isSome then
    let s1 :=
      { s with
        connected_devices := updateDevice s.connected_devices device_id (fun d =>
          { d with
            status := status
            last_seen := now
            performance_metrics :=
              match metrics with
              | some m => if m = [] then d.performance_metrics
                          else m.foldl dictInsertMetric d.performance_metrics
              | none => d.performance_metrics }) }
    let s2 :=
      if status = EdgeDeviceStatus.overloaded then s1.handle_overloaded_device device_id
      else if status = EdgeDeviceStatus.low_battery then s1.handle_low_battery_device device_id
      else s1
    (true, s2)
  else (false, s)

/-- `_can_handle_workload`. -/
def can_handle_workload (d : EdgeDeviceInfo) (workload_type : String) : Bool :=
  if workload_type = "training" then
    decide (d.capabilities.memory_gb.getD 0 ≥ 1) && decide (d.capabilities.cpu_cores.getD 0 ≥ 1)
  else if workload_type = "inference" then
    decide (d.capabilities.cpu_cores.getD 0 ≥ 1)
  else if workload_type = "data_collection" then
    decide (d.capabilities.sensors.getD [] ≠ [])
  else true

/-- `_find_suitable_devices`: ONLINE or IDLE, able to run the workload,
and passing the optional custom filter. -/
def EdgeCoordinator.find_suitable_devices (s : EdgeCoordinator) (workload_type : String)
    (device_filter : Option (EdgeDeviceInfo → Bool)) : List String :=
  (s.connected_devices.filter (fun d =>
    decide (d.status = EdgeDeviceStatus.online ∨ d.status = EdgeDeviceStatus.idle) &&
    can_handle_workload d workload_type &&
    (match device_filter with
     | some f => f d
     | none => true))).map (fun d => d.device_id)

/-- `_calculate_device_score`, in exact rational arithmetic. -/
def calculate_device_score (d : EdgeDeviceInfo) : ℚ :=
  let caps := d.capabilities
  let cpu_score := min (caps.cpu_cores.getD 1 / 2) 1 * 20
  let memory_score := min (caps.memory_gb.getD 1 / 4) 1 * 20
  let performance_score :=
    if d.performance_metrics = [] then 0
    else
      let avg_cpu := ((d.performance_metrics.lookup "avg_cpu_usage").getD 50) / 100
      let avg_memory := ((d.performance_metrics.lookup "avg_memory_usage").getD 50) / 100
      max ((1 - |avg_cpu - 3/5| - |avg_memory - 3/5|) * 30) 0
  let battery_level := caps.battery_level.getD 100
  let battery_score := if battery_level < 100 then min (battery_level / 50) 1 * 20 else 20
  let network_quality := caps.network_bandwidth_mbps.getD 10
  let network_score := min (network_quality / 50) 1 * 10
  cpu_score + memory_score + performance_score + battery_score + network_score

/-- `_select_optimal_device`: best score wins, first-seen on ties
(strict `>` comparison), starting from score `-1`.  Candidate ids always
come from `connected_devices`, so the `none` fallback of the lookup is
unreachable. -/
def EdgeCoordinator.select_optimal_device (s : EdgeCoordinator) (candidates : List String) :
    Option String :=
  (candidates.foldl
    (fun acc device_id =>
      match lookupDevice s.connected_devices device_id with
      | none => acc
      | some d =>
          let score := calculate_device_score d
          if score > acc.2 then (some device_id, score) else acc)
    ((none : Option String), (-1 : ℚ))).1

/-- `EdgeCoordinator.assign_workload`: pick the best candidate, create a
fresh assignment (expected completion 300 s out), store it, and mark the
device busy.  `priority` is accepted and ignored, as in the source. -/
def EdgeCoordinator.assign_workload (s : EdgeCoordinator) (now : Int)
    (workload_type : String) (parameters : List (String × Int))
    (device_filter : Option (EdgeDeviceInfo → Bool)) (priority : Int) :
    Option String × EdgeCoordinator :=
  let candidates := s.find_suitable_devices workload_type device_filter
  if candidates = [] then (none, s)
  else
    match s.select_optimal_device candidates with
    | none => (none, s)
    | some best_device =>
        let workload_id := "workload_" ++ toString now ++ "_" ++ best_device
        let assignment : WorkloadAssignment :=
          { workload_id := workload_id
            device_id := best_device
            workload_type := workload_type
            parameters := parameters
            assigned_at := now
            expected_completion := now + 300
            status := "assigned" }
        (some workload_id,
          { s with
            workload_assignments := dictInsertAssignment s.workload_assignments assignment
            connected_devices := updateDevice s.connected_devices best_device (fun d =>
              { d with current_workload := some workload_id
                       status := EdgeDeviceStatus.busy }) })

/-- `EdgeCoordinator.complete_workload`: unknown id returns `False`;
otherwise — with no check of the current status — set the status to
`completed`, idle the device if it is still registered, and return
`True`.  The `result` payload only feeds the callbacks. -/
def EdgeCoordinator.complete_workload (s : EdgeCoordinator) (workload_id : String) :
    Bool × EdgeCoordinator :=
  match lookupAssignment s.workload_assignments workload_id with
  | none => (false, s)
  | some assignment =>
      let ws := updateAssignment s.workload_assignments workload_id
        (fun a => { a with status := "completed" })
      let ds :=
        if (lookupDevice s.connected_devices assignment.device_id).isSome then
          updateDevice s.connected_devices assignment.device_id
            (fun d => { d with current_workload := none, status := EdgeDeviceStatus.idle })
        else s.connected_devices
      (true, { s with workload_assignments := ws, connected_devices := ds })

/-- The body of the `for workload_id in timed_out_workloads` loop of
`_check_workload_timeouts`: look the assignment up, set its status to
`failed`, and idle its device if registered.  (The ids fed to it are
collected from the dict, so the defensive `none` branch cannot fire.) -/
def EdgeCoordinator.fail_timed_out (st : EdgeCoordinator) (workload_id : String) :
    EdgeCoordinator :=
  match lookupAssignment st.workload_assignments workload_id with
  | none => st
  | some assignment =>
      let st1 := { st with
        workload_assignments := updateAssignment st.workload_assignments workload_id
          (fun a => { a with status := "failed" }) }
      if (lookupDevice st1.connected_devices assignment.device_id).isSome then
        { st1 with
          connected_devices := updateDevice st1.connected_devices assignment.device_id
            (fun d => { d with current_workload := none, status := EdgeDeviceStatus.idle }) }
      else st1

/-- `EdgeCoordinator._check_workload_timeouts`: collect the assignments
that are `running` past their `expected_completion`, then fail each and
idle its device. -/
def EdgeCoordinator.check_workload_timeouts (s : EdgeCoordinator) (now : Int) :
    EdgeCoordinator :=
  let timed_out := (s.workload_assignments.filter (fun a =>
    a.status == "running" && decide (now > a.expected_completion))).map (fun a => a.workload_id)
  timed_out.foldl EdgeCoordinator.fail_timed_out s

/-! ## Claim C9: completion on an already-terminal assignment -/

/-- Empty capability dict. -/
def caps0 : Capabilities :=
  { memory_gb := none, cpu_cores := none, sensors := none, battery_level := none,
    network_bandwidth_mbps := none }

/-- A coordinator holding one busy device `d1` and one already-cancelled
assignment `w1` on it. -/
def c9_state : EdgeCoordinator :=
  { fog_node_id := "fog-1"
    max_edge_devices := 50
    connected_devices :=
      [{ device_id := "d1", device_type := "smartphone", capabilities := caps0,
         status := EdgeDeviceStatus.busy, last_seen := 0, connected_at := 0,
         current_workload := some "w1", performance_metrics := [], location := none }]
    workload_assignments :=
      [{ workload_id := "w1", device_id := "d1", workload_type := "training",
         parameters := [], assigned_at := 0, expected_completion := 300,
         status := "cancelled" }]
    device_groups := [("smartphone", ["d1"])] }

/-- C9 (counterexample): `complete_workload` on the cancelled assignment
`w1` returns `True` (not `False`), overwrites its status with
`completed`, and resets the device — the only check in the source is
membership of the id in `workload_assignments`. -/
theorem complete_workload_terminal_counterexample :
    (c9_state.complete_workload "w1").1 = true ∧
    ((c9_state.complete_workload "w1").2.workload_assignments.map (fun a => a.status))
      = ["completed"] ∧
    ((c9_state.complete_workload "w1").2.connected_devices.map
      (fun d => (d.status, d.current_workload)))
      = [(EdgeDeviceStatus.idle, none)] := by
  decide

/-- C9 (amended): `complete_workload` returns `False` — leaving the state
unchanged — exactly when the workload id is unknown; on any known
assignment, terminal or not, it returns `True`, overwrites the status
with `completed`, and idles the assignment's device (clearing
`current_workload`) whenever that device is registered. -/
theorem complete_workload_spec (s : EdgeCoordinator) (wid : String) :
    (lookupAssignment s.workload_assignments wid = none →
      s.complete_workload wid = (false, s)) ∧
    (∀ a, lookupAssignment s.workload_assignments wid = some a →
      (s.complete_workload wid).1 = true ∧
      (s.complete_workload wid).2.workload_assignments
        = s.workload_assignments.map (fun x =>
            if x.workload_id = wid then { x with status := "completed" } else x) ∧
      (s.complete_workload wid).2.connected_devices
        = s.connected_devices.map (fun d =>
            if d.device_id = a.device_id
            then { d with current_workload := none, status := EdgeDeviceStatus.idle }
            else d)) := by
  constructor
  · intro hn
    simp [EdgeCoordinator.complete_workload, hn]
  · intro a ha
    refine ⟨?_, ?_, ?_⟩
    · simp [EdgeCoordinator.complete_workload, ha]
    · simp only [EdgeCoordinator.complete_workload, ha]
      apply List.map_congr_left
      intro x _
      by_cases hx : x.workload_id = wid
      · simp [hx]
      · simp [hx]
    · simp only [EdgeCoordinator.complete_workload, ha]
      by_cases hd : (lookupDevice s.connected_devices a.device_id).isSome
      · simp only [hd, if_true]
        apply List.map_congr_left
        intro d _
        by_cases hdd : d.device_id = a.device_id
        · simp [updateDevice, hdd]
        · simp [updateDevice, hdd]
      · simp only [hd, Bool.false_eq_true, if_false]
        have hnone : ∀ d ∈ s.connected_devices, d.device_id ≠ a.device_id := by
          have h0 : lookupDevice s.connected_devices a.device_id = none :=
            Option.not_isSome_iff_eq_none.mp (by simpa using hd)
          intro d hdm hcon
          have := List.find?_eq_none.mp h0 d hdm
          simp [hcon] at this
        have hcong : ∀ d ∈ s.connected_devices,
            (if d.device_id = a.device_id
             then { d with current_workload := none, status := EdgeDeviceStatus.idle }
             else d) = d := by
          intro d hdm
          rw [if_neg (hnone d hdm)]
        rw [List.map_congr_left hcong]
        simp

/-- Witness for `complete_workload_spec`: completing the already-cancelled
`w1` returns `True`. -/
theorem complete_workload_spec_witness :
    (c9_state.complete_workload "w1").1 = true :=
  ((complete_workload_spec c9_state "w1").2
    { workload_id := "w1", device_id := "d1", workload_type := "training",
      parameters := [], assigned_at := 0, expected_completion := 300,
      status := "cancelled" } (by rfl)).1

/-! ## Claim C1: cancellation on overloaded / low-battery transitions -/

/-- Device `d1` busy with a priority-10 (critical) assignment `w1`. -/
def c1_stateA : EdgeCoordinator :=
  { fog_node_id := "fog-1"
    max_edge_devices := 50
    connected_devices :=
      [{ device_id := "d1", device_type := "smartphone", capabilities := caps0,
         status := EdgeDeviceStatus.busy, last_seen := 0, connected_at := 0,
         current_workload := some "w1", performance_metrics := [], location := none }]
    workload_assignments :=
      [{ workload_id := "w1", device_id := "d1", workload_type := "training",
         parameters := [("priority", 10)], assigned_at := 0, expected_completion := 300,
         status := "assigned" }]
    device_groups := [("smartphone", ["d1"])] }

/-- Device `d2` busy with a priority-10 (critical) assignment `w2`. -/
def c1_stateB : EdgeCoordinator :=
  { fog_node_id := "fog-1"
    max_edge_devices := 50
    connected_devices :=
      [{ device_id := "d2", device_type := "smartphone", capabilities := caps0,
         status := EdgeDeviceStatus.busy, last_seen := 0, connected_at := 0,
         current_workload := some "w2", performance_metrics := [], location := none }]
    workload_assignments :=
      [{ workload_id := "w2", device_id := "d2", workload_type := "training",
         parameters := [("priority", 10)], assigned_at := 0, expected_completion := 300,
         status := "assigned" }]
    device_groups := [("smartphone", ["d2"])] }

/-- C1 (counterexample): a transition to `overloaded` cancels even the
priority-10 assignment (the claim says priority > 5 is kept), and a
transition to `low_battery` keeps the priority-10 assignment (the claim
says priority > 5 is cancelled). -/
theorem status_cancellation_counterexample :
    ((c1_stateA.update_device_status 1 "d1" EdgeDeviceStatus.overloaded none).2.workload_assignments.map
      (fun a => a.status)) = ["cancelled"] ∧
    ((c1_stateB.update_device_status 1 "d2" EdgeDeviceStatus.low_battery none).2.workload_assignments.map
      (fun a => a.status)) = ["assigned"] := by
  decide

/-- C1 (amended): for a registered device, a transition to `overloaded`
cancels every assigned-or-running assignment of that device regardless of
priority, while a transition to `low_battery` cancels exactly those with
`parameters["priority"] ≤ 5` and keeps those with priority above 5; in
both cases every other assignment is untouched. -/
theorem update_status_cancellation_spec (s : EdgeCoordinator) (now : Int) (id : String)
    (metrics : Option (List (String × ℚ)))
    (hreg : (lookupDevice s.connected_devices id).isSome) :
    ((s.update_device_status now id EdgeDeviceStatus.overloaded metrics).1 = true ∧
      (s.update_device_status now id EdgeDeviceStatus.overloaded metrics).2.workload_assignments
        = s.workload_assignments.map (fun a =>
            if a.device_id = id ∧ activeA a
            then { a with status := "cancelled" } else a)) ∧
    ((s.update_device_status now id EdgeDeviceStatus.low_battery metrics).1 = true ∧
      (s.update_device_status now id EdgeDeviceStatus.low_battery metrics).2.workload_assignments
        = s.workload_assignments.map (fun a =>
            if a.device_id = id ∧ activeA a ∧ ¬(priorityOf a > 5)
            then { a with status := "cancelled" } else a)) := by
  constructor
  · constructor
    · simp [EdgeCoordinator.update_device_status, hreg]
    · simp only [EdgeCoordinator.update_device_status, hreg, if_true,
        EdgeCoordinator.handle_overloaded_device, EdgeCoordinator.cancel_device_workloads]
      apply List.map_congr_left
      intro a _
      by_cases h1 : a.device_id = id ∧ activeA a
      · simp [h1]
      · simp [h1]
  · constructor
    · simp [EdgeCoordinator.update_device_status, hreg]
    · simp only [EdgeCoordinator.update_device_status, hreg, if_true,
        EdgeCoordinator.handle_low_battery_device, EdgeCoordinator.cancel_device_workloads]
      apply List.map_congr_left
      intro a _
      by_cases h1 : a.device_id = id ∧ activeA a
      · by_cases h2 : priorityOf a > 5
        · rw [if_pos h1, if_pos ⟨by trivial, h2⟩,
            if_neg (fun hcon : a.device_id = id ∧ activeA a ∧ ¬(priorityOf a > 5) =>
              hcon.2.2 h2)]
        · rw [if_pos h1, if_neg (fun hcon => h2 hcon.2), if_pos ⟨h1.1, h1.2, h2⟩]
      · rw [if_neg h1, if_neg (fun hcon => h1 ⟨hcon.1, hcon.2.1⟩)]

/-- Witness for `update_status_cancellation_spec` on a concrete state. -/
theorem update_status_cancellation_spec_witness :
    (c1_stateA.update_device_status 1 "d1" EdgeDeviceStatus.overloaded none).1 = true :=
  ((update_status_cancellation_spec c1_stateA 1 "d1" none (by decide)).1).1

/-! ## Claim C8: timeout handling -/

/-- `assignment.status = "failed"`. -/
def failedA (a : WorkloadAssignment) : WorkloadAssignment :=
  { a with status := "failed" }

/-- Freeing a device: clear `current_workload` and go `idle`. -/
def freeD (d : EdgeDeviceInfo) : EdgeDeviceInfo :=
  { d with current_workload := none, status := EdgeDeviceStatus.idle }

/-- The timeout condition of `_check_workload_timeouts`. -/
def timedOut (now : Int) (a : WorkloadAssignment) : Prop :=
  a.status = "running" ∧ now > a.expected_completion

instance (now : Int) (a : WorkloadAssignment) : Decidable (timedOut now a) := by
  unfold timedOut
  infer_instance

/-- What the timeout loop does, expressed pointwise: fail every
assignment whose id is in `ts` and free every device owning one. -/
def failTimeoutsBy (s : EdgeCoordinator) (ts : List String) : EdgeCoordinator :=
  { s with
    workload_assignments := s.workload_assignments.map (fun a =>
      if a.workload_id ∈ ts then failedA a else a)
    connected_devices := s.connected_devices.map (fun d =>
      if ∃ a ∈ s.workload_assignments, a.workload_id ∈ ts ∧ a.device_id = d.device_id
      then freeD d else d) }

theorem freeDevices_if_eq (ds : List EdgeDeviceInfo) (id : String) :
    (if (lookupDevice ds id).isSome then
       updateDevice ds id
         (fun d => { d with current_workload := none, status := EdgeDeviceStatus.idle })
     else ds)
      = ds.map (fun d => if d.device_id = id then freeD d else d) := by
  by_cases hd : (lookupDevice ds id).isSome
  · rw [if_pos hd]
    apply List.map_congr_left
    intro d _
    by_cases hdd : d.device_id = id
    · simp [freeD, hdd]
    · simp [freeD, hdd]
  · rw [if_neg hd]
    have h0 : lookupDevice ds id = none :=
      Option.not_isSome_iff_eq_none.mp (by simpa using hd)
    have hnone : ∀ d ∈ ds, d.device_id ≠ id := by
      intro d hdm hcon
      have := List.find?_eq_none.mp h0 d hdm
      simp [hcon] at this
    have hcong : ∀ d ∈ ds, (if d.device_id = id then freeD d else d) = d := by
      intro d hdm
      rw [if_neg (hnone d hdm)]
    rw [List.map_congr_left hcong]
    simp

theorem updateAssignment_wids (ws : List WorkloadAssignment) (t : String)
    (f : WorkloadAssignment → WorkloadAssignment)
    (hf : ∀ a, (f a).workload_id = a.workload_id) :
    (updateAssignment ws t f).map (fun a => a.workload_id)
      = ws.map (fun a => a.workload_id) := by
  rw [updateAssignment, List.map_map]
  apply List.map_congr_left
  intro a _
  by_cases h : (a.workload_id == t) = true
  · simp [Function.comp, h, hf]
  · simp [Function.comp, h]

theorem lookupAssignment_unique {ws : List WorkloadAssignment} {t : String}
    {a0 : WorkloadAssignment}
    (hnd : (ws.map (fun a => a.workload_id)).Nodup)
    (hl : lookupAssignment ws t = some a0) :
    ∀ x ∈ ws, x.workload_id = t → x = a0 := by
  induction ws with
  | nil => simp [lookupAssignment] at hl
  | cons y ws ih =>
      simp only [List.map_cons, List.nodup_cons] at hnd
      by_cases hy : (y.workload_id == t) = true
      · have hy0 : a0 = y := by
          simp [lookupAssignment, List.find?_cons, hy] at hl
          exact hl.symm
        subst hy0
        intro x hx hxt
        rcases List.mem_cons.mp hx with rfl | hx2
        · rfl
        · exfalso
          have hyt : a0.workload_id = t := by simpa using hy
          exact hnd.1 (by
            rw [hyt, ← hxt]
            exact List.mem_map.mpr ⟨x, hx2, rfl⟩)
      · have hl2 : lookupAssignment ws t = some a0 := by
          simpa [lookupAssignment, List.find?_cons, hy] using hl
        intro x hx hxt
        rcases List.mem_cons.mp hx with rfl | hx2
        · exact absurd (by simpa using hxt) hy
        · exact ih hnd.2 hl2 x hx2 hxt

theorem fail_timed_out_none {s : EdgeCoordinator} {t : String}
    (hl : lookupAssignment s.workload_assignments t = none) :
    s.fail_timed_out t = s := by
  simp [EdgeCoordinator.fail_timed_out, hl]

theorem fail_timed_out_some {s : EdgeCoordinator} {t : String} {a0 : WorkloadAssignment}
    (hl : lookupAssignment s.workload_assignments t = some a0) :
    s.fail_timed_out t =
      { s with
        workload_assignments := s.workload_assignments.map (fun a =>
          if a.workload_id = t then failedA a else a)
        connected_devices := s.connected_devices.map (fun d =>
          if d.device_id = a0.device_id then freeD d else d) } := by
  have hws : updateAssignment s.workload_assignments t (fun a => { a with status := "failed" })
      = s.workload_assignments.map (fun a => if a.workload_id = t then failedA a else a) := by
    apply List.map_congr_left
    intro a _
    by_cases h : a.workload_id = t
    · simp [h, failedA]
    · simp [h]
  have hds := freeDevices_if_eq s.connected_devices a0.device_id
  by_cases hd : (lookupDevice s.connected_devices a0.device_id).isSome
  · rw [if_pos hd] at hds
    simp only [EdgeCoordinator.fail_timed_out, hl, if_pos hd]
    rw [hws, hds]
  · rw [if_neg hd] at hds
    simp only [EdgeCoordinator.fail_timed_out, hl, if_neg hd]
    rw [hws]
    congr 1

theorem exists_assignment_map {ws : List WorkloadAssignment}
    {g : WorkloadAssignment → WorkloadAssignment}
    (hg : ∀ a, (g a).workload_id = a.workload_id ∧ (g a).device_id = a.device_id)
    (Q : String → String → Prop) :
    (∃ a ∈ ws.map g, Q a.workload_id a.device_id) ↔
      ∃ a ∈ ws, Q a.workload_id a.device_id := by
  constructor
  · rintro ⟨a, ha, hq⟩
    rcases List.mem_map.mp ha with ⟨b, hb, rfl⟩
    exact ⟨b, hb, by rwa [(hg b).1, (hg b).2] at hq⟩
  · rintro ⟨a, ha, hq⟩
    exact ⟨g a, List.mem_map.mpr ⟨a, ha, rfl⟩, by rwa [(hg a).1, (hg a).2]⟩

theorem failTimeoutsBy_step (s : EdgeCoordinator) (t : String) (ts : List String)
    (hnd : (s.workload_assignments.map (fun a => a.workload_id)).Nodup) :
    failTimeoutsBy (s.fail_timed_out t) ts = failTimeoutsBy s (t :: ts) := by
  match hl : lookupAssignment s.workload_assignments t with
  | none =>
      rw [fail_timed_out_none hl]
      have hno : ∀ a ∈ s.workload_assignments, a.workload_id ≠ t := by
        intro a ha hcon
        have := List.find?_eq_none.mp hl a ha
        simp [hcon] at this
      simp only [failTimeoutsBy]
      congr 1
      · apply List.map_congr_left
        intro d hd
        apply if_congr _ rfl rfl
        constructor
        · rintro ⟨a, ha, hm, hdev⟩
          exact ⟨a, ha, List.mem_cons_of_mem _ hm, hdev⟩
        · rintro ⟨a, ha, hm, hdev⟩
          rcases List.mem_cons.mp hm with rfl | hm2
          · exact absurd rfl (hno a ha)
          · exact ⟨a, ha, hm2, hdev⟩
      · apply List.map_congr_left
        intro a ha
        apply if_congr _ rfl rfl
        rw [List.mem_cons]
        constructor
        · exact Or.inr
        · rintro (hcon | hm)
          · exact absurd hcon (hno a ha)
          · exact hm
  | some a0 =>
      have ha0mem : a0 ∈ s.workload_assignments := List.mem_of_find?_eq_some hl
      have ha0wid : a0.workload_id = t := by
        have := List.find?_some hl
        simpa using this
      have huniq := lookupAssignment_unique hnd hl
      rw [fail_timed_out_some hl]
      simp only [failTimeoutsBy]
      congr 1
      · rw [List.map_map]
        apply List.map_congr_left
        intro d _
        by_cases hdev : d.device_id = a0.device_id
        · have hfree : (freeD d).device_id = d.device_id := rfl
          simp only [Function.comp, if_pos hdev]
          have hP2 : ∃ a ∈ s.workload_assignments,
              a.workload_id ∈ t :: ts ∧ a.device_id = d.device_id := by
            exact ⟨a0, ha0mem, by rw [ha0wid]; exact List.mem_cons_self _ _, hdev.symm⟩
          rw [if_pos hP2]
          by_cases hQ : ∃ a ∈ (s.workload_assignments.map (fun a =>
              if a.workload_id = t then failedA a else a)),
              a.workload_id ∈ ts ∧ a.device_id = (freeD d).device_id
          · rw [if_pos hQ]
            rfl
          · rw [if_neg hQ]
        · simp only [Function.comp, if_neg hdev]
          have hiff : (∃ a ∈ (s.workload_assignments.map (fun a =>
                if a.workload_id = t then failedA a else a)),
                a.workload_id ∈ ts ∧ a.device_id = d.device_id) ↔
              (∃ a ∈ s.workload_assignments,
                a.workload_id ∈ t :: ts ∧ a.device_id = d.device_id) := by
            rw [exists_assignment_map (g := fun a =>
                if a.workload_id = t then failedA a else a)
              (fun a => by
                by_cases h : a.workload_id = t
                · exact ⟨by simp [h, failedA], by simp [h, failedA]⟩
                · simp [h])
              (fun w v => w ∈ ts ∧ v = d.device_id)]
            constructor
            · rintro ⟨a, ha, hm, hdv⟩
              exact ⟨a, ha, List.mem_cons_of_mem _ hm, hdv⟩
            · rintro ⟨a, ha, hm, hdv⟩
              rcases List.mem_cons.mp hm with hwt | hm2
              · exfalso
                have ha0 : a = a0 := huniq a ha hwt
                rw [ha0] at hdv
                exact hdev hdv.symm
              · exact ⟨a, ha, hm2, hdv⟩
          apply if_congr hiff rfl rfl
      · rw [List.map_map]
        apply List.map_congr_left
        intro a _
        by_cases hw : a.workload_id = t
        · simp only [Function.comp, if_pos hw]
          have h1 : (failedA a).workload_id ∈ ts ∨ ¬((failedA a).workload_id ∈ ts) :=
            Decidable.em _
          have hmem : a.workload_id ∈ t :: ts := by rw [hw]; exact List.mem_cons_self _ _
          rw [if_pos hmem]
          by_cases h2 : (failedA a).workload_id ∈ ts
          · rw [if_pos h2]
            rfl
          · rw [if_neg h2]
        · simp only [Function.comp, if_neg hw]
          apply if_congr _ rfl rfl
          rw [List.mem_cons]
          constructor
          · exact Or.inr
          · rintro (hcon | hm)
            · exact absurd hcon hw
            · exact hm

theorem fail_timed_out_wids (s : EdgeCoordinator) (t : String) :
    ((s.fail_timed_out t).workload_assignments.map (fun a => a.workload_id))
      = s.workload_assignments.map (fun a => a.workload_id) := by
  match hl : lookupAssignment s.workload_assignments t with
  | none => rw [fail_timed_out_none hl]
  | some a0 =>
      rw [fail_timed_out_some hl]
      show ((s.workload_assignments.map _).map _) = _
      rw [List.map_map]
      apply List.map_congr_left
      intro a _
      by_cases h : a.workload_id = t
      · simp [Function.comp, h, failedA]
      · simp [Function.comp, h]

theorem foldl_fail_timed (ts : List String) :
    ∀ s : EdgeCoordinator,
      (s.workload_assignments.map (fun a => a.workload_id)).Nodup →
      ts.foldl EdgeCoordinator.fail_timed_out s = failTimeoutsBy s ts := by
  induction ts with
  | nil =>
      intro s _
      show s = failTimeoutsBy s []
      simp [failTimeoutsBy]
  | cons t ts ih =>
      intro s hnd
      show ts.foldl EdgeCoordinator.fail_timed_out (s.fail_timed_out t) = _
      have hnd2 : ((s.fail_timed_out t).workload_assignments.map
          (fun a => a.workload_id)).Nodup := by
        rw [fail_timed_out_wids]
        exact hnd
      rw [ih _ hnd2, failTimeoutsBy_step s t ts hnd]

/-- C8 (amended): a monitoring tick (`_check_workload_timeouts`) fails
exactly the assignments that are `running` with `now` past their
`expected_completion`, and frees (idles, clearing the current workload
of) exactly the devices owning such an assignment; assignments that are
merely `assigned` — which nothing in the coordinator ever promotes to
`running` — stay non-terminal past their deadline, and their devices stay
busy. -/
theorem check_workload_timeouts_spec (s : EdgeCoordinator) (now : Int)
    (hnd : (s.workload_assignments.map (fun a => a.workload_id)).Nodup) :
    s.check_workload_timeouts now =
      { s with
        workload_assignments := s.workload_assignments.map (fun a =>
          if timedOut now a then failedA a else a)
        connected_devices := s.connected_devices.map (fun d =>
          if ∃ a ∈ s.workload_assignments, timedOut now a ∧ a.device_id = d.device_id
          then freeD d else d) } := by
  have hmem_iff : ∀ a ∈ s.workload_assignments,
      (a.workload_id ∈ ((s.workload_assignments.filter (fun a =>
          a.status == "running" && decide (now > a.expected_completion))).map
          (fun a => a.workload_id)) ↔ timedOut now a) := by
    intro a ha
    constructor
    · intro hm
      rcases List.mem_map.mp hm with ⟨b, hb, hba⟩
      rcases List.mem_filter.mp hb with ⟨hbmem, hbp⟩
      have hab : b = a := List.inj_on_of_nodup_map hnd hbmem ha hba
      subst hab
      simpa [timedOut] using hbp
    · intro hp
      refine List.mem_map.mpr ⟨a, List.mem_filter.mpr ⟨ha, ?_⟩, rfl⟩
      simpa [timedOut] using hp
  rw [EdgeCoordinator.check_workload_timeouts]
  rw [foldl_fail_timed _ s hnd]
  simp only [failTimeoutsBy]
  congr 1
  · apply List.map_congr_left
    intro d _
    apply if_congr _ rfl rfl
    constructor
    · rintro ⟨a, ha, hm, hdev⟩
      exact ⟨a, ha, (hmem_iff a ha).mp hm, hdev⟩
    · rintro ⟨a, ha, hp, hdev⟩
      exact ⟨a, ha, (hmem_iff a ha).mpr hp, hdev⟩
  · apply List.map_congr_left
    intro a ha
    apply if_congr (hmem_iff a ha) rfl rfl

/-- A device busy with an `assigned` workload whose deadline (0) is long
past at `now = 10`. -/
def c8_state : EdgeCoordinator :=
  { fog_node_id := "fog-1"
    max_edge_devices := 50
    connected_devices :=
      [{ device_id := "d1", device_type := "smartphone", capabilities := caps0,
         status := EdgeDeviceStatus.busy, last_seen := 0, connected_at := 0,
         current_workload := some "w1", performance_metrics := [], location := none }]
    workload_assignments :=
      [{ workload_id := "w1", device_id := "d1", workload_type := "training",
         parameters := [], assigned_at := 0, expected_completion := 0,
         status := "assigned" }]
    device_groups := [("smartphone", ["d1"])] }

/-- C8 (counterexample): `w1` is non-terminal (`assigned`) and its
`expected_completion` (0) is past at `now = 10`, yet the monitoring tick
leaves it `assigned` and its device busy — the loop only fails `running`
assignments. -/
theorem check_workload_timeouts_counterexample :
    ((c8_state.check_workload_timeouts 10).workload_assignments.map (fun a => a.status))
      = ["assigned"] ∧
    ((c8_state.check_workload_timeouts 10).connected_devices.map
      (fun d => (d.status, d.current_workload)))
      = [(EdgeDeviceStatus.busy, some "w1")] := by
  decide

/-- Witness for `check_workload_timeouts_spec` on a concrete state with a
`running`, overdue assignment. -/
theorem check_workload_timeouts_spec_witness :
    ({ c8_state with workload_assignments :=
        [{ workload_id := "w1", device_id := "d1", workload_type := "training",
           parameters := [], assigned_at := 0, expected_completion := 0,
           status := "running" }] } : EdgeCoordinator).check_workload_timeouts 10 =
      { c8_state with
        workload_assignments :=
          [{ workload_id := "w1", device_id := "d1", workload_type := "training",
             parameters := [], assigned_at := 0, expected_completion := 0,
             status := "failed" }]
        connected_devices :=
          [{ device_id := "d1", device_type := "smartphone", capabilities := caps0,
             status := EdgeDeviceStatus.idle, last_seen := 0, connected_at := 0,
             current_workload := none, performance_metrics := [], location := none }] } := by
  rw [check_workload_timeouts_spec _ 10 (by decide)]
  decide

/-! ## Claim C2: busy iff non-terminal assignment -/

theorem lookupAssignment_wid {ws : List WorkloadAssignment} {t : String}
    {a : WorkloadAssignment} (h : lookupAssignment ws t = some a) :
    a.workload_id = t := by
  have := List.find?_some h
  simpa using this

theorem lookupAssignment_mem {ws : List WorkloadAssignment} {t : String}
    {a : WorkloadAssignment} (h : lookupAssignment ws t = some a) : a ∈ ws :=
  List.mem_of_find?_eq_some h

theorem lookupDevice_isSome_iff {ds : List EdgeDeviceInfo} {id : String} :
    (lookupDevice ds id).isSome ↔ ∃ d ∈ ds, d.device_id = id := by
  simp [lookupDevice, List.find?_isSome]

theorem lookupAssignment_none_iff {ws : List WorkloadAssignment} {t : String} :
    lookupAssignment ws t = none ↔ ∀ a ∈ ws, a.workload_id ≠ t := by
  simp [lookupAssignment, List.find?_eq_none]

/-- States reachable (quiescently) through device registration, workload
assignment with a fresh generated id, and completion of a non-terminal
workload. -/
inductive CoordReach : EdgeCoordinator → Prop where
  | init (fog_node_id : String) (max_edge_devices : Nat) :
      CoordReach (mkEdgeCoordinator fog_node_id max_edge_devices)
  | register (s : EdgeCoordinator) (now : Int) (id dtype : String)
      (caps : Capabilities) (loc : Option (List (String × ℚ))) :
      CoordReach s → CoordReach (s.register_device now id dtype caps loc).2
  | assign (s : EdgeCoordinator) (now : Int) (wtype : String)
      (params : List (String × Int)) (filt : Option (EdgeDeviceInfo → Bool))
      (prio : Int) :
      CoordReach s →
      (∀ wid, (s.assign_workload now wtype params filt prio).1 = some wid →
        lookupAssignment s.workload_assignments wid = none) →
      CoordReach (s.assign_workload now wtype params filt prio).2
  | complete (s : EdgeCoordinator) (wid : String) (a : WorkloadAssignment) :
      CoordReach s →
      lookupAssignment s.workload_assignments wid = some a →
      activeA a →
      CoordReach (s.complete_workload wid).2

/-- Inductive invariant tying device statuses to the assignment table. -/
structure CoordInv (s : EdgeCoordinator) : Prop where
  dev_nodup : (s.connected_devices.map (fun d => d.device_id)).Nodup
  wid_nodup : (s.workload_assignments.map (fun a => a.workload_id)).Nodup
  targets : ∀ a ∈ s.workload_assignments, ∃ d ∈ s.connected_devices,
      d.device_id = a.device_id
  busy_to : ∀ d ∈ s.connected_devices, d.status = EdgeDeviceStatus.busy →
      ∃ a ∈ s.workload_assignments, a.device_id = d.device_id ∧ activeA a ∧
        d.current_workload = some a.workload_id ∧
        ∀ a2 ∈ s.workload_assignments, a2.device_id = d.device_id → activeA a2 → a2 = a
  not_busy_to : ∀ d ∈ s.connected_devices, d.status ≠ EdgeDeviceStatus.busy →
      ∀ a ∈ s.workload_assignments, a.device_id = d.device_id → ¬ activeA a

theorem coordInv_init (fog_node_id : String) (max_edge_devices : Nat) :
    CoordInv (mkEdgeCoordinator fog_node_id max_edge_devices) := by
  refine ⟨?_, ?_, ?_, ?_, ?_⟩ <;> simp [mkEdgeCoordinator]

theorem coordInv_register (s : EdgeCoordinator) (now : Int) (id dtype : String)
    (caps : Capabilities) (loc : Option (List (String × ℚ)))
    (h : CoordInv s) : CoordInv (s.register_device now id dtype caps loc).2 := by
  by_cases hfull : s.connected_devices.length ≥ s.max_edge_devices
  · simpa [EdgeCoordinator.register_device, hfull] using h
  · by_cases hdup : (lookupDevice s.connected_devices id).isSome
    · simpa [EdgeCoordinator.register_device, hfull, hdup] using h
    · have hfresh : ∀ d ∈ s.connected_devices, d.device_id ≠ id := by
        intro d hd hcon
        exact hdup (lookupDevice_isSome_iff.mpr ⟨d, hd, hcon⟩)
      simp only [EdgeCoordinator.register_device, if_neg hfull, hdup, Bool.false_eq_true,
        if_false]
      refine ⟨?_, h.wid_nodup, ?_, ?_, ?_⟩
      · show ((s.connected_devices ++ [_]).map (fun d : EdgeDeviceInfo => d.device_id)).Nodup
        rw [List.map_append, List.nodup_append]
        refine ⟨h.dev_nodup, List.nodup_singleton _, ?_⟩
        intro x hx hx2
        simp only [List.map_cons, List.map_nil, List.mem_singleton] at hx2
        rcases List.mem_map.mp hx with ⟨d, hd, rfl⟩
        exact hfresh d hd hx2
      · intro a ha
        rcases h.targets a ha with ⟨d, hd, hdd⟩
        exact ⟨d, List.mem_append_left _ hd, hdd⟩
      · intro d hd hbusy
        rcases List.mem_append.mp hd with hd | hd
        · rcases h.busy_to d hd hbusy with ⟨a, ha, h1, h2, h3, h4⟩
          exact ⟨a, ha, h1, h2, h3, h4⟩
        · simp only [List.mem_singleton] at hd
          subst hd
          simp at hbusy
      · intro d hd hnb a ha hdd
        rcases List.mem_append.mp hd with hd | hd
        · exact h.not_busy_to d hd hnb a ha hdd
        · simp only [List.mem_singleton] at hd
          subst hd
          rcases h.targets a ha with ⟨d0, hd0, hdd0⟩
          exfalso
          exact hfresh d0 hd0 (hdd0.trans hdd)

theorem updateDevice_ids (ds : List EdgeDeviceInfo) (id : String)
    (f : EdgeDeviceInfo → EdgeDeviceInfo)
    (hf : ∀ d, (f d).device_id = d.device_id) :
    (updateDevice ds id f).map (fun d => d.device_id) = ds.map (fun d => d.device_id) := by
  rw [updateDevice, List.map_map]
  apply List.map_congr_left
  intro d _
  by_cases h : (d.device_id == id) = true
  · simp [Function.comp, h, hf]
  · simp [Function.comp, h]

theorem exists_device_id_iff {ds : List EdgeDeviceInfo} {v : String} :
    (∃ d ∈ ds, d.device_id = v) ↔ v ∈ ds.map (fun d => d.device_id) := by
  constructor
  · rintro ⟨d, hd, rfl⟩
    exact List.mem_map.mpr ⟨d, hd, rfl⟩
  · intro hv
    rcases List.mem_map.mp hv with ⟨d, hd, hdv⟩
    exact ⟨d, hd, hdv⟩

theorem completed_not_active (x : WorkloadAssignment) :
    ¬ activeA { x with status := "completed" } := by
  intro hcon
  rcases hcon with hcon | hcon <;> simp at hcon

theorem coordInv_complete (s : EdgeCoordinator) (wid : String) (a : WorkloadAssignment)
    (h : CoordInv s) (hl : lookupAssignment s.workload_assignments wid = some a)
    (hact : activeA a) : CoordInv (s.complete_workload wid).2 := by
  have hamem := lookupAssignment_mem hl
  have hawid := lookupAssignment_wid hl
  obtain ⟨d0, hd0, hd0id⟩ := h.targets a hamem
  have hreg : (lookupDevice s.connected_devices a.device_id).isSome :=
    lookupDevice_isSome_iff.mpr ⟨d0, hd0, hd0id⟩
  have hd0busy : d0.status = EdgeDeviceStatus.busy := by
    by_contra hnb
    exact (h.not_busy_to d0 hd0 hnb a hamem hd0id.symm) hact
  obtain ⟨astar, hastar, hb1, hb2, hb3, hb4⟩ := h.busy_to d0 hd0 hd0busy
  have hastar_eq : a = astar := hb4 a hamem hd0id.symm hact
  have huniq := lookupAssignment_unique h.wid_nodup hl
  have hg_wid : ∀ x : WorkloadAssignment,
      ((if x.workload_id == wid then { x with status := "completed" } else x) :
        WorkloadAssignment).workload_id = x.workload_id := by
    intro x
    by_cases hx : (x.workload_id == wid) = true
    · simp [hx]
    · simp [hx]
  have hg_dev : ∀ x : WorkloadAssignment,
      ((if x.workload_id == wid then { x with status := "completed" } else x) :
        WorkloadAssignment).device_id = x.device_id := by
    intro x
    by_cases hx : (x.workload_id == wid) = true
    · simp [hx]
    · simp [hx]
  have hg_active : ∀ x : WorkloadAssignment,
      activeA ((if x.workload_id == wid then { x with status := "completed" } else x) :
        WorkloadAssignment) →
      x.workload_id ≠ wid ∧
        (if x.workload_id == wid then { x with status := "completed" } else x) = x := by
    intro x hx
    by_cases hxw : (x.workload_id == wid) = true
    · rw [if_pos hxw] at hx
      exact absurd hx (completed_not_active x)
    · exact ⟨by simpa using hxw, if_neg hxw⟩
  simp only [EdgeCoordinator.complete_workload, hl, hreg, if_true]
  refine ⟨?_, ?_, ?_, ?_, ?_⟩
  · show ((updateDevice s.connected_devices a.device_id
        (fun d => { d with current_workload := none,
                           status := EdgeDeviceStatus.idle })).map
      (fun d => d.device_id)).Nodup
    rw [updateDevice_ids s.connected_devices a.device_id
      (fun d => { d with current_workload := none, status := EdgeDeviceStatus.idle })
      (fun d => rfl)]
    exact h.dev_nodup
  · show ((updateAssignment s.workload_assignments wid
        (fun x => { x with status := "completed" })).map
      (fun a => a.workload_id)).Nodup
    rw [updateAssignment_wids s.workload_assignments wid
      (fun x => { x with status := "completed" }) (fun x => rfl)]
    exact h.wid_nodup
  · intro x hx
    rcases List.mem_map.mp hx with ⟨y, hy, rfl⟩
    rw [exists_device_id_iff]
    show _ ∈ (updateDevice s.connected_devices a.device_id
      (fun d => { d with current_workload := none,
                         status := EdgeDeviceStatus.idle })).map (fun d => d.device_id)
    rw [updateDevice_ids s.connected_devices a.device_id
      (fun d => { d with current_workload := none, status := EdgeDeviceStatus.idle })
      (fun d => rfl), ← exists_device_id_iff]
    obtain ⟨d, hd, hdd⟩ := h.targets y hy
    refine ⟨d, hd, ?_⟩
    rw [hdd]
    exact (hg_dev y).symm
  · intro d' hd' hbusy
    rcases List.mem_map.mp hd' with ⟨d, hd, rfl⟩
    by_cases hmatch : (d.device_id == a.device_id) = true
    · rw [if_pos hmatch] at hbusy
      simp at hbusy
    · rw [if_neg hmatch] at hbusy ⊢
      obtain ⟨b, hbmem, hbdev, hbact, hbcur, hbuniq⟩ := h.busy_to d hd hbusy
      have hbwid : b.workload_id ≠ wid := by
        intro hcon
        have hba : b = a := huniq b hbmem hcon
        subst hba
        rw [hbdev] at hmatch
        simp at hmatch
      refine ⟨if b.workload_id == wid then { b with status := "completed" } else b,
        List.mem_map.mpr ⟨b, hbmem, rfl⟩, ?_, ?_, ?_, ?_⟩
      · rw [hg_dev b, hbdev]
      · rw [if_neg (by simpa using hbwid)]
        exact hbact
      · rw [hg_wid b, hbcur]
      · intro a2 ha2 ha2dev ha2act
        rcases List.mem_map.mp ha2 with ⟨x, hx, rfl⟩
        obtain ⟨hxw, hxeq⟩ := hg_active x ha2act
        rw [hxeq] at ha2dev ha2act ⊢
        rw [if_neg (by simpa using hbwid)]
        exact hbuniq x hx ha2dev ha2act
  · intro d' hd' hnb x' hx' hxdev
    rcases List.mem_map.mp hd' with ⟨d, hd, rfl⟩
    rcases List.mem_map.mp hx' with ⟨x, hx, rfl⟩
    intro hxact
    obtain ⟨hxw, hxeq⟩ := hg_active x hxact
    rw [hxeq] at hxdev hxact
    by_cases hmatch : (d.device_id == a.device_id) = true
    · rw [if_pos hmatch] at hxdev
      have hmatch2 : d.device_id = a.device_id := by simpa using hmatch
      have hxd : x.device_id = d.device_id := by simpa using hxdev
      have hxd0 : x.device_id = d0.device_id := by
        rw [hxd, hmatch2, ← hd0id]
      have hxa : x = a := (hb4 x hx hxd0 hxact).trans hastar_eq.symm
      exact hxw (by rw [hxa, hawid])
    · rw [if_neg hmatch] at hxdev hnb
      exact h.not_busy_to d hd hnb x hx hxdev hxact

theorem select_optimal_device_mem (s : EdgeCoordinator) (cs : List String) (x : String)
    (h : s.select_optimal_device cs = some x) : x ∈ cs := by
  have hgen : ∀ (cs : List String) (acc : Option String × ℚ),
      ((cs.foldl (fun acc device_id =>
          match lookupDevice s.connected_devices device_id with
          | none => acc
          | some d =>
              let score := calculate_device_score d
              if score > acc.2 then (some device_id, score) else acc) acc).1 = some x) →
        x ∈ cs ∨ acc.1 = some x := by
    intro cs
    induction cs with
    | nil =>
        intro acc hx
        exact Or.inr hx
    | cons c cs ih =>
        intro acc hx
        rw [List.foldl_cons] at hx
        rcases ih _ hx with hm | hacc
        · exact Or.inl (List.mem_cons_of_mem _ hm)
        · cases hl : lookupDevice s.connected_devices c with
          | none =>
              rw [hl] at hacc
              exact Or.inr hacc
          | some d =>
              rw [hl] at hacc
              by_cases hsc : calculate_device_score d > acc.2
              · simp only [if_pos hsc] at hacc
                have hcx : c = x := by
                  simpa using hacc
                exact Or.inl (hcx ▸ List.mem_cons_self _ _)
              · simp only [if_neg hsc] at hacc
                exact Or.inr hacc
  rcases hgen cs ((none : Option String), (-1 : ℚ)) h with hm | habs
  · exact hm
  · simp at habs

theorem find_suitable_mem (s : EdgeCoordinator) (wtype : String)
    (filt : Option (EdgeDeviceInfo → Bool)) (x : String)
    (hx : x ∈ s.find_suitable_devices wtype filt) :
    ∃ d ∈ s.connected_devices, d.device_id = x ∧
      (d.status = EdgeDeviceStatus.online ∨ d.status = EdgeDeviceStatus.idle) := by
  rcases List.mem_map.mp hx with ⟨d, hd, rfl⟩
  rcases List.mem_filter.mp hd with ⟨hdm, hdp⟩
  refine ⟨d, hdm, rfl, ?_⟩
  simp only [Bool.and_eq_true, decide_eq_true_eq] at hdp
  exact hdp.1.1

theorem coordInv_assign (s : EdgeCoordinator) (now : Int) (wtype : String)
    (params : List (String × Int)) (filt : Option (EdgeDeviceInfo → Bool)) (prio : Int)
    (h : CoordInv s)
    (hfresh : ∀ wid, (s.assign_workload now wtype params filt prio).1 = some wid →
      lookupAssignment s.workload_assignments wid = none) :
    CoordInv (s.assign_workload now wtype params filt prio).2 := by
  by_cases hcand : s.find_suitable_devices wtype filt = []
  · simpa [EdgeCoordinator.assign_workload, hcand] using h
  · cases hsel : s.select_optimal_device (s.find_suitable_devices wtype filt) with
    | none => simpa [EdgeCoordinator.assign_workload, hcand, hsel] using h
    | some best =>
        have hbest_mem := select_optimal_device_mem s _ best hsel
        obtain ⟨db, hdb, hdbid, hdbstat⟩ := find_suitable_mem s wtype filt best hbest_mem
        have hres1 : (s.assign_workload now wtype params filt prio).1
            = some ("workload_" ++ toString now ++ "_" ++ best) := by
          simp [EdgeCoordinator.assign_workload, hcand, hsel]
        have hfresh0 := hfresh _ hres1
        have hwid0notin := lookupAssignment_none_iff.mp hfresh0
        have hdb_notbusy : db.status ≠ EdgeDeviceStatus.busy := by
          rcases hdbstat with hs | hs <;> simp [hs]
        have hins : dictInsertAssignment s.workload_assignments
            { workload_id := "workload_" ++ toString now ++ "_" ++ best
              device_id := best
              workload_type := wtype
              parameters := params
              assigned_at := now
              expected_completion := now + 300
              status := "assigned" }
            = s.workload_assignments ++
              [{ workload_id := "workload_" ++ toString now ++ "_" ++ best
                 device_id := best
                 workload_type := wtype
                 parameters := params
                 assigned_at := now
                 expected_completion := now + 300
                 status := "assigned" }] := by
          rw [dictInsertAssignment, if_neg]
          intro hc
          rcases List.any_eq_true.mp hc with ⟨y, hy, hyb⟩
          exact hwid0notin y hy (by simpa using hyb)
        simp only [EdgeCoordinator.assign_workload, hcand, hsel, if_neg hcand]
        rw [hins]
        refine ⟨?_, ?_, ?_, ?_, ?_⟩
        · show ((updateDevice s.connected_devices best
              (fun d => { d with
                current_workload := some ("workload_" ++ toString now ++ "_" ++ best)
                status := EdgeDeviceStatus.busy })).map (fun d => d.device_id)).Nodup
          rw [updateDevice_ids s.connected_devices best
            (fun d => { d with
              current_workload := some ("workload_" ++ toString now ++ "_" ++ best)
              status := EdgeDeviceStatus.busy }) (fun d => rfl)]
          exact h.dev_nodup
        · show (((s.workload_assignments ++ [_]).map (fun a : WorkloadAssignment =>
            a.workload_id))).Nodup
          rw [List.map_append, List.nodup_append]
          refine ⟨h.wid_nodup, List.nodup_singleton _, ?_⟩
          intro y hy hy2
          simp only [List.map_cons, List.map_nil, List.mem_singleton] at hy2
          rcases List.mem_map.mp hy with ⟨b, hb, rfl⟩
          exact hwid0notin b hb hy2
        · intro x hx
          rw [exists_device_id_iff]
          show _ ∈ (updateDevice s.connected_devices best
            (fun d => { d with
              current_workload := some ("workload_" ++ toString now ++ "_" ++ best)
              status := EdgeDeviceStatus.busy })).map (fun d => d.device_id)
          rw [updateDevice_ids s.connected_devices best
            (fun d => { d with
              current_workload := some ("workload_" ++ toString now ++ "_" ++ best)
              status := EdgeDeviceStatus.busy }) (fun d => rfl),
            ← exists_device_id_iff]
          rcases List.mem_append.mp hx with hx | hx
          · exact h.targets x hx
          · simp only [List.mem_singleton] at hx
            subst hx
            exact ⟨db, hdb, hdbid⟩
        · intro d' hd' hbusy
          rcases List.mem_map.mp hd' with ⟨d, hd, rfl⟩
          by_cases hmatch : (d.device_id == best) = true
          · have hmatch2 : d.device_id = best := by simpa using hmatch
            rw [if_pos hmatch] at hbusy ⊢
            refine ⟨_, List.mem_append_right _ (List.mem_singleton.mpr rfl), ?_, ?_, ?_, ?_⟩
            · show best = _
              exact hmatch2.symm
            · exact Or.inl rfl
            · rfl
            · intro a2 ha2 ha2dev ha2act
              rcases List.mem_append.mp ha2 with ha2 | ha2
              · exfalso
                have ha2db : a2.device_id = db.device_id := by
                  rw [hdbid]
                  show a2.device_id = best
                  exact ha2dev.trans hmatch2
                exact h.not_busy_to db hdb hdb_notbusy a2 ha2 ha2db ha2act
              · exact List.mem_singleton.mp ha2
          · rw [if_neg hmatch] at hbusy ⊢
            obtain ⟨b, hbmem, hbdev, hbact, hbcur, hbuniq⟩ := h.busy_to d hd hbusy
            refine ⟨b, List.mem_append_left _ hbmem, hbdev, hbact, hbcur, ?_⟩
            intro a2 ha2 ha2dev ha2act
            rcases List.mem_append.mp ha2 with ha2 | ha2
            · exact hbuniq a2 ha2 ha2dev ha2act
            · exfalso
              rw [List.mem_singleton.mp ha2] at ha2dev
              have : d.device_id = best := ha2dev.symm
              rw [this] at hmatch
              simp at hmatch
        · intro d' hd' hnb x hx hxdev
          rcases List.mem_map.mp hd' with ⟨d, hd, rfl⟩
          by_cases hmatch : (d.device_id == best) = true
          · rw [if_pos hmatch] at hnb
            exact absurd rfl hnb
          · rw [if_neg hmatch] at hnb hxdev
            rcases List.mem_append.mp hx with hx | hx
            · exact h.not_busy_to d hd hnb x hx hxdev
            · intro hxact
              rw [List.mem_singleton.mp hx] at hxdev
              have : d.device_id = best := hxdev.symm
              rw [this] at hmatch
              simp at hmatch

theorem coordReach_inv (s : EdgeCoordinator) (h : CoordReach s) : CoordInv s := by
  induction h with
  | init f m => exact coordInv_init f m
  | register s now id dtype caps loc _ ih => exact coordInv_register s now id dtype caps loc ih
  | assign s now wtype params filt prio _ hfresh ih =>
      exact coordInv_assign s now wtype params filt prio ih hfresh
  | complete s wid a _ hl hact ih => exact coordInv_complete s wid a ih hl hact

/-- C2 (amended): the busy-iff-active-assignment biconditional is not an
invariant of the full operation set — `update_device_status` can set any
status directly (see the counterexample) and the low-battery /
overloaded / terminal-completion paths break it as well — but it does
hold at every state reachable from the initial coordinator through
`register_device`, `assign_workload` steps whose generated workload id is
fresh, and `complete_workload` applied to a non-terminal assignment. -/
theorem busy_iff_active_assignment (s : EdgeCoordinator) (h : CoordReach s) :
    ∀ d ∈ s.connected_devices,
      (d.status = EdgeDeviceStatus.busy ↔
        ∃ a ∈ s.workload_assignments, a.device_id = d.device_id ∧ activeA a) := by
  have hinv := coordReach_inv s h
  intro d hd
  constructor
  · intro hb
    obtain ⟨a, ha, h1, h2, _, _⟩ := hinv.busy_to d hd hb
    exact ⟨a, ha, h1, h2⟩
  · rintro ⟨a, ha, h1, h2⟩
    by_contra hnb
    exact hinv.not_busy_to d hd hnb a ha h1 h2

/-- Register `d1`, then report it `busy` through `update_device_status`:
a quiescent state reachable by the claim's own operation set. -/
def c2_run : EdgeCoordinator :=
  let s0 := mkEdgeCoordinator "fog-1" 50
  let r1 := s0.register_device 0 "d1" "smartphone" caps0 none
  (r1.2.update_device_status 1 "d1" EdgeDeviceStatus.busy none).2

/-- C2 (counterexample): after `register_device` and
`update_device_status(d1, busy)` the single device is `busy` while the
assignment table is empty, so `busy` does not imply a non-terminal
assignment. -/
theorem busy_without_assignment_counterexample :
    (c2_run.connected_devices.map (fun d => d.status)) = [EdgeDeviceStatus.busy] ∧
    c2_run.workload_assignments = [] := by
  decide

/-- The coordinator after registering device `d1`. -/
def c2_wit_state : EdgeCoordinator :=
  ((mkEdgeCoordinator "fog-1" 50).register_device 0 "d1" "smartphone" caps0 none).2

/-- The device record produced by registering `d1`. -/
def c2_dev : EdgeDeviceInfo :=
  { device_id := "d1"
    device_type := "smartphone"
    capabilities := caps0
    status := EdgeDeviceStatus.online
    last_seen := 0
    connected_at := 0
    current_workload := none
    performance_metrics := []
    location := none }

/-- Witness for `busy_iff_active_assignment` at the state reached by one
registration, instantiated at the registered (online) device. -/
theorem busy_iff_active_assignment_witness :
    (c2_dev.status = EdgeDeviceStatus.busy ↔
      ∃ a ∈ c2_wit_state.workload_assignments,
        a.device_id = c2_dev.device_id ∧ activeA a) :=
  busy_iff_active_assignment c2_wit_state
    (CoordReach.register _ 0 "d1" "smartphone" caps0 none (CoordReach.init "fog-1" 50))
    c2_dev (by decide)

/-! ## Regional aggregator (src/fog_node/aggregator.py) -/

/-- `EdgeUpdate` dataclass; tensors are maps from parameter name to an
exact rational value (Python floats idealized over ℚ). -/
structure EdgeUpdate where
  client_id : String
  model_weights : List (String × ℚ)
  sample_count : Int
  training_loss : ℚ
  timestamp : Int
  device_tier : String
  privacy_budget : ℚ
  compression_ratio : ℚ
deriving DecidableEq, Repr

/-- `AggregationResult` dataclass. -/
structure AggregationResult where
  aggregated_weights : List (String × ℚ)
  participating_clients : List String
  total_samples : Int
  average_loss : ℚ
  aggregation_round : Nat
  fog_node_id : String
  created_at : Int
deriving DecidableEq, Repr

/-- `RegionalAggregator` state.  The strategy is fixed to the default
`FEDAVG` (no claim concerns the other strategies), and the timing fields
(`max_wait_time`, `aggregation_threshold`) play no role in the modelled
quiescent transitions. -/
structure RegionalAggregator where
  fog_node_id : String
  min_clients : Nat
  current_round : Nat
  pending_updates : List EdgeUpdate
  aggregation_history : List AggregationResult
  round_start_time : Option Int
deriving DecidableEq, Repr

/-- A fresh aggregator (`__init__`): round 0, no pending updates, no
`round_start_time`. -/
def mkRegionalAggregator (fog_node_id : String) (min_clients : Nat) : RegionalAggregator :=
  { fog_node_id := fog_node_id
    min_clients := min_clients
    current_round := 0
    pending_updates := []
    aggregation_history := []
    round_start_time := none }

/-- `start_aggregation_round`: bump the round, stamp the start time,
clear the pending updates.  (The guard against an unfinished aggregation
task and the spawned coordination task are concurrency bookkeeping with
no state effect here.) -/
def RegionalAggregator.start_aggregation_round (s : RegionalAggregator) (now : Int) :
    RegionalAggregator :=
  { s with
    current_round := s.current_round + 1
    round_start_time := some now
    pending_updates := [] }

/-- `self.round_start_time and update.timestamp < self.round_start_time`
(a datetime is always truthy). -/
def tsLate (s : RegionalAggregator) (u : EdgeUpdate) : Bool :=
  match s.round_start_time with
  | some t => decide (u.timestamp < t)
  | none => false

/-- `RegionalAggregator._validate_update`.  In the typed embedding
`model_weights` is always a mapping, so of the check `not
update.model_weights or not isinstance(update.model_weights, dict)` only
the emptiness part remains. -/
def RegionalAggregator.validate_update (s : RegionalAggregator) (u : EdgeUpdate) : Bool :=
  if tsLate s u then false
  else if u.model_weights = [] then false
  else if u.sample_count ≤ 0 then false
  else if u.client_id ∈ s.pending_updates.map (fun v => v.client_id) then false
  else true

/-- `RegionalAggregator.add_edge_update`: reject when there is no active
round (`round_start_time` unset) or validation fails; otherwise append to
`pending_updates`. -/
def RegionalAggregator.add_edge_update (s : RegionalAggregator) (u : EdgeUpdate) :
    Bool × RegionalAggregator :=
  match s.round_start_time with
  | none => (false, s)
  | some _ =>
      if s.validate_update u then
        (true, { s with pending_updates := s.pending_updates ++ [u] })
      else (false, s)

def lookupQ (l : List (String × ℚ)) (k : String) : Option ℚ :=
  l.lookup k

/-- The inner loop of `_fedavg_aggregation` for one parameter name:
`weighted_sum` accumulates `(sample_count / total) * tensor` over the
updates (starting from `None`, i.e. 0); a missing parameter name is a
`KeyError`, modelled as `none`. -/
def weightedSumParam (updates : List EdgeUpdate) (total : Int) (n : String) : Option ℚ :=
  updates.foldl
    (fun acc u =>
      match acc, lookupQ u.model_weights n with
      | some v, some w => some (v + ((u.sample_count : ℚ) / (total : ℚ)) * w)
      | _, _ => none)
    (some 0)

/-- The outer loop of `_fedavg_aggregation`: build the aggregated dict in
the order of the first update's parameter names. -/
def fedavgParams (updates : List EdgeUpdate) (total : Int) :
    List String → Option (List (String × ℚ))
  | [] => some []
  | n :: ns =>
      match weightedSumParam updates total n, fedavgParams updates total ns with
      | some v, some rest => some ((n, v) :: rest)
      | _, _ => none

/-- `RegionalAggregator._fedavg_aggregation` over a list of updates (the
source reads `self.pending_updates`): weighted average by sample count,
parameter names taken from the first update.  An empty list indexes
`updates[0]` out of range in Python, modelled as `none`. -/
def fedavg_aggregation (updates : List EdgeUpdate) : Option (List (String × ℚ)) :=
  match updates with
  | [] => none
  | u0 :: _ =>
      fedavgParams updates ((updates.map (fun u => u.sample_count)).sum)
        (u0.model_weights.map (fun p => p.1))

/-- `RegionalAggregator._perform_aggregation` (FEDAVG branch): aggregate,
compute the sample-weighted average loss, record the result in
`aggregation_history`. -/
def RegionalAggregator.perform_aggregation (s : RegionalAggregator) (now : Int) :
    Option (AggregationResult × RegionalAggregator) :=
  match fedavg_aggregation s.pending_updates with
  | none => none
  | some aggw =>
      let total := (s.pending_updates.map (fun u => u.sample_count)).sum
      let average_loss :=
        (s.pending_updates.map (fun u => u.training_loss * (u.sample_count : ℚ))).sum
          / (total : ℚ)
      let result : AggregationResult :=
        { aggregated_weights := aggw
          participating_clients := s.pending_updates.map (fun u => u.client_id)
          total_samples := total
          average_loss := average_loss
          aggregation_round := s.current_round
          fog_node_id := s.fog_node_id
          created_at := now }
      some (result, { s with aggregation_history := s.aggregation_history ++ [result] })

/-- The completion path of `_coordinate_aggregation`: once the wait loop
ends, aggregate if any updates are pending (otherwise only log a
warning).  Neither `round_start_time` nor `pending_updates` is reset. -/
def RegionalAggregator.complete_round (s : RegionalAggregator) (now : Int) :
    Option RegionalAggregator :=
  if s.pending_updates = [] then some s
  else (s.perform_aggregation now).map (fun r => r.2)

/-! ## Claim C5: rejection conditions of `add_edge_update` -/

/-- C5 (amended): `add_edge_update` rejects an update exactly when there
is no active round (`round_start_time` unset), the timestamp predates the
round start, the weights are empty, the sample count is non-positive, or
the client already appears in `pending_updates`; on rejection the state
is unchanged, on acceptance the update is appended.  However, completing
a round resets neither `round_start_time` nor `pending_updates` (only the
next `start_aggregation_round` does), so an update arriving after a round
has completed and before the next start is validated against the stale
round and, if otherwise valid, accepted. -/
theorem add_edge_update_spec (s : RegionalAggregator) (u : EdgeUpdate) :
    ((s.add_edge_update u).1 = false ↔
      (s.round_start_time = none ∨
       (∃ t, s.round_start_time = some t ∧ u.timestamp < t) ∨
       u.model_weights = [] ∨
       u.sample_count ≤ 0 ∨
       u.client_id ∈ s.pending_updates.map (fun v => v.client_id))) ∧
    ((s.add_edge_update u).1 = false → (s.add_edge_update u).2 = s) ∧
    ((s.add_edge_update u).1 = true →
      (s.add_edge_update u).2 = { s with pending_updates := s.pending_updates ++ [u] }) ∧
    (∀ now s2, s.complete_round now = some s2 →
      s2.round_start_time = s.round_start_time ∧
      s2.pending_updates = s.pending_updates ∧
      s2.current_round = s.current_round) := by
  refine ⟨?_, ?_, ?_, ?_⟩
  · match hrs : s.round_start_time with
    | none =>
        simp only [RegionalAggregator.add_edge_update, hrs]
        simp
    | some t =>
        simp only [RegionalAggregator.add_edge_update, hrs]
        by_cases hv : s.validate_update u
        · rw [if_pos hv]
          simp only [Bool.true_eq_false, false_iff]
          rw [RegionalAggregator.validate_update] at hv
          intro hcon
          rcases hcon with hcon | ⟨t2, ht2, hlt⟩ | hcon | hcon | hcon
          · exact Option.noConfusion hcon
          · have ht2' : t = t2 := Option.some.inj ht2
            subst ht2'
            have htl : tsLate s u = true := by
              unfold tsLate
              rw [hrs]
              simpa using hlt
            rw [if_pos htl] at hv
            exact Bool.noConfusion hv
          · rw [if_neg ?_] at hv
            · rw [if_pos hcon] at hv
              exact Bool.noConfusion hv
            · intro htl
              rw [if_pos htl] at hv
              exact Bool.noConfusion hv
          · by_cases htl : tsLate s u = true
            · rw [if_pos htl] at hv; exact Bool.noConfusion hv
            · rw [if_neg htl] at hv
              by_cases hw : u.model_weights = []
              · rw [if_pos hw] at hv; exact Bool.noConfusion hv
              · rw [if_neg hw, if_pos hcon] at hv; exact Bool.noConfusion hv
          · by_cases htl : tsLate s u = true
            · rw [if_pos htl] at hv; exact Bool.noConfusion hv
            · rw [if_neg htl] at hv
              by_cases hw : u.model_weights = []
              · rw [if_pos hw] at hv; exact Bool.noConfusion hv
              · rw [if_neg hw] at hv
                by_cases hc : u.sample_count ≤ 0
                · rw [if_pos hc] at hv; exact Bool.noConfusion hv
                · rw [if_neg hc, if_pos hcon] at hv; exact Bool.noConfusion hv
        · rw [if_neg hv]
          simp only [true_iff]
          rw [RegionalAggregator.validate_update] at hv
          by_cases htl : tsLate s u = true
          · rw [tsLate, hrs] at htl
            exact Or.inr (Or.inl ⟨t, rfl, by simpa using htl⟩)
          · rw [if_neg htl] at hv
            by_cases hw : u.model_weights = []
            · exact Or.inr (Or.inr (Or.inl hw))
            · rw [if_neg hw] at hv
              by_cases hc : u.sample_count ≤ 0
              · exact Or.inr (Or.inr (Or.inr (Or.inl hc)))
              · rw [if_neg hc] at hv
                by_cases hd : u.client_id ∈ s.pending_updates.map (fun v => v.client_id)
                · exact Or.inr (Or.inr (Or.inr (Or.inr hd)))
                · rw [if_neg hd] at hv
                  exact absurd rfl hv
  · intro hfalse
    match hrs : s.round_start_time with
    | none => simp [RegionalAggregator.add_edge_update, hrs]
    | some t =>
        rw [RegionalAggregator.add_edge_update] at hfalse ⊢
        rw [hrs] at hfalse ⊢
        by_cases hv : s.validate_update u
        · rw [if_pos hv] at hfalse
          exact Bool.noConfusion hfalse
        · rw [if_neg hv]
  · intro htrue
    match hrs : s.round_start_time with
    | none =>
        rw [RegionalAggregator.add_edge_update] at htrue
        rw [hrs] at htrue
        exact Bool.noConfusion htrue
    | some t =>
        rw [RegionalAggregator.add_edge_update] at htrue ⊢
        rw [hrs] at htrue ⊢
        by_cases hv : s.validate_update u
        · rw [if_pos hv]
        · rw [if_neg hv] at htrue
          exact Bool.noConfusion htrue
  · intro now s2 hcomp
    rw [RegionalAggregator.complete_round] at hcomp
    by_cases hp : s.pending_updates = []
    · rw [if_pos hp] at hcomp
      have : s = s2 := Option.some.inj hcomp
      subst this
      exact ⟨rfl, rfl, rfl⟩
    · rw [if_neg hp] at hcomp
      rw [RegionalAggregator.perform_aggregation] at hcomp
      match hfa : fedavg_aggregation s.pending_updates with
      | none =>
          rw [hfa] at hcomp
          exact Option.noConfusion hcomp
      | some aggw =>
          rw [hfa] at hcomp
          have hcomp2 := hcomp
          simp only [Option.map_some', Option.some.injEq] at hcomp2
          refine ⟨?_, ?_, ?_⟩ <;> rw [← hcomp2]

/-- A valid update from client `c1` at t = 5. -/
def c5_u1 : EdgeUpdate :=
  { client_id := "c1", model_weights := [("w", 1)], sample_count := 1,
    training_loss := 1/2, timestamp := 5, device_tier := "edge",
    privacy_budget := 1, compression_ratio := 1 }

/-- A valid update from client `c2` at t = 6, arriving after the round
has completed. -/
def c5_u2 : EdgeUpdate :=
  { client_id := "c2", model_weights := [("w", 2)], sample_count := 1,
    training_loss := 1/2, timestamp := 6, device_tier := "edge",
    privacy_budget := 1, compression_ratio := 1 }

/-- Start a round at t = 0, admit `c1`, complete the round at t = 10,
then submit `c2`. -/
def c5_run : Option (Bool × RegionalAggregator) :=
  let s1 := (mkRegionalAggregator "fog-1" 3).start_aggregation_round 0
  let r1 := s1.add_edge_update c5_u1
  (r1.2.complete_round 10).map (fun s3 => s3.add_edge_update c5_u2)

/-- C5 (counterexample): the update arriving after the round has
completed and before the next `start_aggregation_round` is accepted (and
appended to the stale round), not rejected for having no active round:
completion never clears `round_start_time`. -/
theorem post_round_update_accepted_counterexample :
    c5_run.map (fun r => (r.1, r.2.pending_updates.length, r.2.round_start_time))
      = some (true, 2, some 0) := by
  decide

/-- Witness for `add_edge_update_spec`: a concrete accepted update is
appended, and a concrete rejection (no active round) leaves the state
unchanged. -/
theorem add_edge_update_spec_witness :
    ((mkRegionalAggregator "fog-1" 3).add_edge_update c5_u1).1 = false ∧
    ((mkRegionalAggregator "fog-1" 3).add_edge_update c5_u1).2
      = mkRegionalAggregator "fog-1" 3 := by
  have h := add_edge_update_spec (mkRegionalAggregator "fog-1" 3) c5_u1
  exact ⟨h.1.mpr (Or.inl rfl), h.2.1 (h.1.mpr (Or.inl rfl))⟩

/-! ## Claim C6: FedAvg weight normalization -/

theorem weightedSum_fold (updates : List EdgeUpdate) (total : Int) (n : String)
    (h : ∀ u ∈ updates, (lookupQ u.model_weights n).isSome) :
    ∀ acc : ℚ,
      updates.foldl
        (fun acc u =>
          match acc, lookupQ u.model_weights n with
          | some v, some w => some (v + ((u.sample_count : ℚ) / (total : ℚ)) * w)
          | _, _ => none) (some acc)
        = some (acc + (updates.map (fun u =>
            ((u.sample_count : ℚ) / (total : ℚ)) *
              ((lookupQ u.model_weights n).getD 0))).sum) := by
  induction updates with
  | nil =>
      intro acc
      simp
  | cons u us ih =>
      intro acc
      obtain ⟨w, hw⟩ := Option.isSome_iff_exists.mp (h u (List.mem_cons_self _ _))
      have htail : ∀ v ∈ us, (lookupQ v.model_weights n).isSome :=
        fun v hv => h v (List.mem_cons_of_mem _ hv)
      rw [List.foldl_cons]
      have hstep : (match (some acc : Option ℚ), lookupQ u.model_weights n with
          | some v, some w => some (v + ((u.sample_count : ℚ) / (total : ℚ)) * w)
          | _, _ => none) = some (acc + ((u.sample_count : ℚ) / (total : ℚ)) * w) := by
        rw [hw]
      rw [hstep, ih htail _, List.map_cons, List.sum_cons, hw]
      simp only [Option.getD_some]
      congr 1
      ring

theorem weightedSumParam_eq (updates : List EdgeUpdate) (total : Int) (n : String)
    (h : ∀ u ∈ updates, (lookupQ u.model_weights n).isSome) :
    weightedSumParam updates total n
      = some ((updates.map (fun u =>
          ((u.sample_count : ℚ) / (total : ℚ)) *
            ((lookupQ u.model_weights n).getD 0))).sum) := by
  rw [weightedSumParam, weightedSum_fold updates total n h 0, zero_add]

theorem fedavgParams_eq (updates : List EdgeUpdate) (total : Int) (ns : List String)
    (h : ∀ u ∈ updates, ∀ n ∈ ns, (lookupQ u.model_weights n).isSome) :
    fedavgParams updates total ns
      = some (ns.map (fun n =>
          (n, (updates.map (fun u =>
            ((u.sample_count : ℚ) / (total : ℚ)) *
              ((lookupQ u.model_weights n).getD 0))).sum))) := by
  induction ns with
  | nil => rfl
  | cons n ns ih =>
      rw [fedavgParams,
        weightedSumParam_eq updates total n
          (fun u hu => h u hu n (List.mem_cons_self _ _)),
        ih (fun u hu m hm => h u hu m (List.mem_cons_of_mem _ hm))]
      rfl

theorem fedavg_weights_sum_one (updates : List EdgeUpdate)
    (hne : updates ≠ []) (hpos : ∀ u ∈ updates, 0 < u.sample_count) :
    (updates.map (fun u => (u.sample_count : ℚ) /
        (((updates.map (fun v => v.sample_count)).sum : Int) : ℚ))).sum = 1 := by
  have hTpos : 0 < (updates.map (fun v => v.sample_count)).sum := by
    match updates, hne with
    | u :: us, _ =>
        rw [List.map_cons, List.sum_cons]
        have h1 : 0 < u.sample_count := hpos u (List.mem_cons_self _ _)
        have h2 : 0 ≤ (us.map (fun v => v.sample_count)).sum := by
          apply List.sum_nonneg
          intro x hx
          rcases List.mem_map.mp hx with ⟨v, hv, rfl⟩
          exact le_of_lt (hpos v (List.mem_cons_of_mem _ hv))
        omega
  have hTQ : (((updates.map (fun v => v.sample_count)).sum : Int) : ℚ) ≠ 0 :=
    Int.cast_ne_zero.mpr (ne_of_gt hTpos)
  have hsplit : (updates.map (fun u => (u.sample_count : ℚ) /
        (((updates.map (fun v => v.sample_count)).sum : Int) : ℚ))).sum
      = (updates.map (fun u => (u.sample_count : ℚ))).sum *
          ((((updates.map (fun v => v.sample_count)).sum : Int) : ℚ))⁻¹ := by
    rw [← List.sum_map_mul_right]
    refine congrArg List.sum (List.map_congr_left ?_)
    intro u _
    exact div_eq_mul_inv _ _
  have hcast : (updates.map (fun u => ((u.sample_count : Int) : ℚ))).sum
      = (((updates.map (fun v => v.sample_count)).sum : Int) : ℚ) := by
    rw [Int.cast_list_sum, List.map_map]
    rfl
  rw [hsplit, hcast, mul_inv_cancel₀ hTQ]

/-- Updates with sample counts 10, 20, 70 and single-parameter weights
1, 2 and 3. -/
def c6_u1 : EdgeUpdate :=
  { client_id := "c1", model_weights := [("w", 1)], sample_count := 10,
    training_loss := 1, timestamp := 0, device_tier := "edge",
    privacy_budget := 1, compression_ratio := 1 }

def c6_u2 : EdgeUpdate :=
  { client_id := "c2", model_weights := [("w", 2)], sample_count := 20,
    training_loss := 1, timestamp := 0, device_tier := "edge",
    privacy_budget := 1, compression_ratio := 1 }

def c6_u3 : EdgeUpdate :=
  { client_id := "c3", model_weights := [("w", 3)], sample_count := 70,
    training_loss := 1, timestamp := 0, device_tier := "edge",
    privacy_budget := 1, compression_ratio := 1 }

/-- C6: for every non-empty set of updates with positive sample counts
that all carry the first update's parameter names, the FedAvg weights
`sample_count / total` sum exactly to 1, and the aggregation returns, for
each parameter, the convex combination of the inputs under those weights
(arithmetic idealized over ℚ: the Python floats introduce rounding that
the source otherwise mirrors); in particular with sample counts
{10, 20, 70} and single-parameter weights {1, 2, 3} the aggregated
parameter is 13/5 = 2.6. -/
theorem fedavg_convex_combination :
    (∀ (u0 : EdgeUpdate) (rest : List EdgeUpdate),
      (∀ u ∈ u0 :: rest, 0 < u.sample_count) →
      (∀ u ∈ u0 :: rest, ∀ n ∈ u0.model_weights.map (fun p => p.1),
        (lookupQ u.model_weights n).isSome) →
      (((u0 :: rest).map (fun u => (u.sample_count : ℚ) /
          ((((u0 :: rest).map (fun v => v.sample_count)).sum : Int) : ℚ))).sum = 1 ∧
       fedavg_aggregation (u0 :: rest)
         = some ((u0.model_weights.map (fun p => p.1)).map (fun n =>
             (n, (((u0 :: rest).map (fun u =>
               ((u.sample_count : ℚ) /
                ((((u0 :: rest).map (fun v => v.sample_count)).sum : Int) : ℚ)) *
               ((lookupQ u.model_weights n).getD 0))).sum)))))) ∧
    fedavg_aggregation [c6_u1, c6_u2, c6_u3] = some [("w", 13/5)] := by
  constructor
  · intro u0 rest hpos hkeys
    constructor
    · exact fedavg_weights_sum_one (u0 :: rest) (by simp) hpos
    · rw [fedavg_aggregation]
      exact fedavgParams_eq (u0 :: rest) _ _ (fun u hu n hn => hkeys u hu n hn)
  · simp [fedavg_aggregation, fedavgParams, weightedSumParam, lookupQ, c6_u1, c6_u2, c6_u3]
    norm_num

/-- Witness for `fedavg_convex_combination`: on the {10, 20, 70} updates
the FedAvg weights sum to exactly 1. -/
theorem fedavg_convex_combination_witness :
    ([c6_u1, c6_u2, c6_u3].map (fun u => (u.sample_count : ℚ) /
        ((([c6_u1, c6_u2, c6_u3].map (fun v => v.sample_count)).sum : Int) : ℚ))).sum = 1 :=
  (fedavg_convex_combination.1 c6_u1 [c6_u2, c6_u3] (by decide) (by decide)).1
